import Mathlib

/-!
# Verification of the pipeline graph-construction and traversal core

Shallow embedding of `sdks/python/google/cloud/dataflow/pipeline.py`:
the `Pipeline` DAG builder (`Pipeline.apply`, duplicate-label handling,
producer assignment, element-type inference dispatch), the
`AppliedPTransform` node type with its `is_composite` classification and
depth-first `visit`, and the `PipelineVisitor` callback protocol.

Value nodes (`PValue`s, `PBegin` sentinels and `DoOutputsTuple` bundles)
and `AppliedPTransform` nodes are identified by numeric ids; the mutable
Python object graph becomes an explicit `Graph` of association lists.
Python's identity-based set membership on value objects becomes id
membership.  External collaborators that live outside this file's source
(the runner's `apply`, `format_full_label`, `_extract_input_pvalues`,
the typehints module) are parameters of the embedded operations: the
theorems hold for every instantiation of those parameters.
-/

namespace Beam

/-- Identifier of a value node (`PValue`, `PBegin`, or `DoOutputsTuple`). -/
abbrev VId := Nat

/-- Identifier of an `AppliedPTransform` node. -/
abbrev NodeId := Nat

/-- Payload type for element type hints.  The typehints module is external;
only equality of its objects matters here, so an opaque countable carrier
suffices. -/
abbrev TypeX := Nat

/-- The kind of a value node: an ordinary `PCollection`, the `PBegin`
sentinel (never recursed into during traversal), or a `DoOutputsTuple`
bundle that is iterable to its member `PCollection` ids. -/
inductive VKind where
  | pcoll
  | pbegin
  | doTuple (members : List VId)
deriving DecidableEq, Repr

/-- State of one value node: its (write-once in practice) producer
reference, its optional element type, and its kind.  Mirrors the
`producer` / `element_type` attributes used by `pipeline.py`. -/
structure ValInfo where
  producer : Option NodeId
  elementType : Option TypeX
  kind : VKind
deriving DecidableEq, Repr

/-- One element of an `AppliedPTransform.side_inputs` tuple: either an
`AsSideInput` marker object wrapping an underlying value (`pval.pvalue`),
or some other object, which the traversal's
`isinstance(pval, pvalue.AsSideInput)` test skips. -/
inductive SideInput where
  | asSideInput (v : VId)
  | nonSide
deriving DecidableEq, Repr

/-- One `AppliedPTransform` record: parent/transform references, the full
label, and the `inputs`, `side_inputs`, `outputs`, `parts` collections,
exactly the fields set by `AppliedPTransform.__init__` and mutated by
`add_output` / `add_part`. -/
structure NodeInfo where
  parent : Option NodeId
  transformLabel : Option String
  fullLabel : String
  inputs : List VId
  sideInputs : List SideInput
  outputs : List VId
  parts : List NodeId
deriving DecidableEq, Repr

/-- The object graph: value nodes and `AppliedPTransform` nodes by id. -/
structure Graph where
  vals : List (VId × ValInfo)
  nodes : List (NodeId × NodeInfo)
deriving DecidableEq, Repr

/-- First-match association lookup (Python attribute access on the object
with the given id). -/
def alookup {β : Type} : List (Nat × β) → Nat → Option β
  | [], _ => none
  | (a, b) :: t, k => if k = a then some b else alookup t k

def Graph.val? (g : Graph) (v : VId) : Option ValInfo := alookup g.vals v

def Graph.node? (g : Graph) (n : NodeId) : Option NodeInfo := alookup g.nodes n

/-- `v.producer` (also defined on `DoOutputsTuple` objects). -/
def valProducer (g : Graph) (v : VId) : Option NodeId :=
  match g.val? v with
  | some i => i.producer
  | none => none

/-- `v.element_type`; `none` models Python `None` / unset. -/
def elementTypeOf (g : Graph) (v : VId) : Option TypeX :=
  match g.val? v with
  | some i => i.elementType
  | none => none

/-- `isinstance(pval, pvalue.PBegin)`. -/
def isPBegin (g : Graph) (v : VId) : Bool :=
  match g.val? v with
  | some i => i.kind = .pbegin
  | none => false

/-- `isinstance(result, pvalue.PCollection)`. -/
def isPColl (g : Graph) (v : VId) : Bool :=
  match g.val? v with
  | some i => i.kind = .pcoll
  | none => false

/-- The flattening used by the output loop of `AppliedPTransform.visit`:
a `DoOutputsTuple` output stands for its tagged member collections
(`pvals = (v for v in pval)`), any other value stands for itself. -/
def flattenOutput (g : Graph) (o : VId) : List VId :=
  match g.val? o with
  | some i =>
    match i.kind with
    | .doTuple ms => ms
    | _ => [o]
  | none => [o]

def partsOfG (g : Graph) (n : NodeId) : List NodeId :=
  match g.node? n with
  | some nd => nd.parts
  | none => []

def inputsOfG (g : Graph) (n : NodeId) : List VId :=
  match g.node? n with
  | some nd => nd.inputs
  | none => []

def sidesOfG (g : Graph) (n : NodeId) : List SideInput :=
  match g.node? n with
  | some nd => nd.sideInputs
  | none => []

def outputsOfG (g : Graph) (n : NodeId) : List VId :=
  match g.node? n with
  | some nd => nd.outputs
  | none => []

/-- `AppliedPTransform.is_composite` on a node record:
`return self.parts or all(pval.producer is not self for pval in self.outputs)`.
Note the `all` ranges over the raw `outputs` entries (a `DoOutputsTuple`
entry contributes its own `producer`, not its members'). -/
def isCompositeN (g : Graph) (n : NodeId) (nd : NodeInfo) : Bool :=
  !nd.parts.isEmpty || nd.outputs.all (fun o => valProducer g o != some n)

/-- `is_composite` looked up by node id (a node absent from the graph is
never reached by the traversal; the `true` default matches the vacuous
no-parts/no-outputs reading). -/
def isCompositeG (g : Graph) (n : NodeId) : Bool :=
  match g.node? n with
  | some nd => isCompositeN g n nd
  | none => true

/-! ## The `PipelineVisitor` protocol and the traversal -/

/-- One visitor callback invocation, in the order recorded by a traversal:
the four methods of `PipelineVisitor`. -/
inductive Event where
  | enterComposite (n : NodeId)
  | leaveComposite (n : NodeId)
  | visitTransformE (n : NodeId)
  | visitValueE (v : VId) (producerNode : NodeId)
deriving DecidableEq, Repr

/-- Traversal state: the shared `visited` set of value ids and the
sequence of callbacks fired so far (later callbacks appended at the
right). -/
structure VState where
  visited : List VId
  events : List Event
deriving DecidableEq, Repr

/-- The callback that announces a node itself: `enter_composite_transform`
for a composite node, `visit_transform` for a primitive one. -/
def callbackOf (g : Graph) (n : NodeId) : Event :=
  if isCompositeG g n then .enterComposite n else .visitTransformE n

/-- The inputs loop of `AppliedPTransform.visit`: for each input value not
yet visited and not a `PBegin`, assert it has a producer, recursively
visit that producer, and assert the value is visited afterwards.  Python
`assert` failures are modelled as `none`.  `visit` is the recursive call
(`visitNode` at one less fuel). -/
def visitVals (visit : NodeId → VState → Option VState) (g : Graph) :
    List VId → VState → Option VState
  | [], s => some s
  | v :: vs, s =>
    if v ∈ s.visited ∨ isPBegin g v then visitVals visit g vs s
    else
      match valProducer g v with
      | none => none
      | some p =>
        match visit p s with
        | none => none
        | some s' =>
          if v ∈ s'.visited then visitVals visit g vs s' else none

/-- The side-inputs loop of `AppliedPTransform.visit`: for each
`AsSideInput` element whose underlying value is not yet visited, unwrap
it, assert it has a producer, recursively visit the producer, and assert
the value is visited afterwards. -/
def visitSides (visit : NodeId → VState → Option VState) (g : Graph) :
    List SideInput → VState → Option VState
  | [], s => some s
  | .nonSide :: svs, s => visitSides visit g svs s
  | .asSideInput v :: svs, s =>
    if v ∈ s.visited then visitSides visit g svs s
    else
      match valProducer g v with
      | none => none
      | some p =>
        match visit p s with
        | none => none
        | some s' =>
          if v ∈ s'.visited then visitSides visit g svs s' else none

/-- The parts loop of a composite node's visit. -/
def visitParts (visit : NodeId → VState → Option VState) :
    List NodeId → VState → Option VState
  | [], s => some s
  | q :: qs, s =>
    match visit q s with
    | none => none
    | some s' => visitParts visit qs s'

/-- Appending one callback to the trace. -/
def emit (s : VState) (e : Event) : VState :=
  { s with events := s.events ++ [e] }

/-- One value of the output loop of `AppliedPTransform.visit`: if not yet
visited, mark it visited and fire `visit_value(v, self)`. -/
def markStep (n : NodeId) (s : VState) (v : VId) : VState :=
  if v ∈ s.visited then s
  else { visited := v :: s.visited, events := s.events ++ [.visitValueE v n] }

/-- The output loop of `AppliedPTransform.visit`: flatten each output
(`DoOutputsTuple`s into their tagged members), and for each resulting
value not yet visited, mark it visited and fire `visit_value(v, self)`. -/
def markOutputs (g : Graph) (n : NodeId) (outs : List VId) (s : VState) : VState :=
  outs.foldl (fun s o => (flattenOutput g o).foldl (markStep n) s) s

/-- `AppliedPTransform.visit(visitor, pipeline, visited)`, with explicit
fuel for the recursion (the Python call stack): inputs loop, side-inputs
loop, composite/primitive callback dispatch (with the parts loop and the
`leave_composite_transform` callback in the composite case), then the
output-marking loop.  `none` models a failed assertion or a recursion
that does not terminate within the fuel. -/
def visitNode (g : Graph) : Nat → NodeId → VState → Option VState
  | 0, _, _ => none
  | fuel + 1, n, s =>
    match g.node? n with
    | none => none
    | some nd =>
      match visitVals (visitNode g fuel) g nd.inputs s with
      | none => none
      | some s1 =>
        match visitSides (visitNode g fuel) g nd.sideInputs s1 with
        | none => none
        | some s2 =>
          if isCompositeN g n nd then
            match visitParts (visitNode g fuel) nd.parts (emit s2 (.enterComposite n)) with
            | none => none
            | some s3 =>
              some (markOutputs g n nd.outputs (emit s3 (.leaveComposite n)))
          else
            some (markOutputs g n nd.outputs (emit s2 (.visitTransformE n)))

/-! ## The `Pipeline` object and `Pipeline.visit` -/

/-- The fields of a parsed options object consulted by `Pipeline.apply`:
`pipeline_type_check` and `type_check_strictness`. -/
structure Opts where
  pipeline_type_check : Bool
  type_check_strictness : String
deriving DecidableEq, Repr

/-- `Pipeline` construction state: the object graph, the `transforms_stack`
(top of the Python list, `transforms_stack[-1]`, is the head here), the
`applied_labels` set, the `_nodes` registry of `PValue`s in insertion
order, the options object, and a fresh-id source for new
`AppliedPTransform`s. -/
structure PState where
  graph : Graph
  transforms_stack : List NodeId
  applied_labels : List String
  pvalRegistry : List VId
  options : Option Opts
  nextNode : NodeId
deriving DecidableEq, Repr

/-- `Pipeline.__init__`: one root sentinel `AppliedPTransform(None, None,
'', None)` (so `inputs = ()`, `side_inputs = ()`), the stack holding just
that root, and an empty label set and node registry. -/
def initPState (options : Option Opts) : PState :=
  { graph :=
      { vals := []
        nodes := [(0, { parent := none, transformLabel := none, fullLabel := ""
                        inputs := [], sideInputs := [], outputs := [], parts := [] })] }
    transforms_stack := [0]
    applied_labels := []
    pvalRegistry := []
    options := options
    nextNode := 1 }

/-- `Pipeline._current_transform()`: the top of the stack. -/
def currentTransform (p : PState) : NodeId := p.transforms_stack.headD 0

/-- The full label of the current (stack-top) `AppliedPTransform`: the
label prefix that `format_full_label` combines with a transform's own
label. -/
def currentFullLabel (p : PState) : String :=
  match p.graph.node? (currentTransform p) with
  | some nd => nd.fullLabel
  | none => ""

/-- `Pipeline._root_transform()`: the bottom of the stack. -/
def rootTransform (p : PState) : NodeId := p.transforms_stack.getLastD 0

/-- `pvalue.PCollection(...)` / `PBegin` / `DoOutputsTuple` creation by a
transform or runner: registers a fresh value object in the graph and in
the pipeline's `_nodes` registry.  Value creation happens in the external
runner/transform layer; this is its effect on the state `pipeline.py`
maintains. -/
def addVal (p : PState) (v : VId) (i : ValInfo) : PState :=
  { p with
    graph := { p.graph with vals := p.graph.vals ++ [(v, i)] }
    pvalRegistry := p.pvalRegistry ++ [v] }

/-- Outcome of `Pipeline.visit`. -/
inductive VisitOutcome where
  /-- `error.PipelineError('PValue not in pipeline ...')`. -/
  | notInPipeline
  /-- the `assert node.producer is not None` failed. -/
  | noProducer
  /-- a failure inside `AppliedPTransform.visit` (failed assertion or
  exhausted recursion fuel). -/
  | visitFailed
  /-- the traversal completed with the given final visited set and trace. -/
  | done (s : VState)
deriving DecidableEq, Repr

/-- `Pipeline.visit(visitor, node)`: with `node = none` the full traversal
from the root sentinel; with `node = some v` the partial traversal from
`v.producer`, after the registry-membership check and the producer
assertion.  A fresh empty `visited` set is used for each invocation. -/
def pipelineVisit (p : PState) (fuel : Nat) : Option VId → VisitOutcome
  | none =>
    match visitNode p.graph fuel (rootTransform p) ⟨[], []⟩ with
    | none => .visitFailed
    | some s => .done s
  | some v =>
    if v ∈ p.pvalRegistry then
      match valProducer p.graph v with
      | none => .noProducer
      | some start =>
        match visitNode p.graph fuel start ⟨[], []⟩ with
        | none => .visitFailed
        | some s => .done s
    else .notInPipeline

/-! ## `Pipeline.apply` -/

/-- The slice of a transform descriptor that `Pipeline.apply` consults.
Type-hint accessors (`get_type_hints().input_types`, `simple_output_type`,
`output_types`, `infer_output_type`) belong to the external transforms /
typehints modules and are carried here as opaque data/functions.
`inputTypes` models the positional component `input_types[0]` (so the
Python guard `input_types and input_types[0]` is `some l` with `l ≠ []`,
and `input_types[0][0]` is `l.head`). -/
structure Transform where
  label : String
  sideInputs : List SideInput
  inputTypes : Option (List TypeX)
  simpleOutputType : Option TypeX
  outputTypes : Option (List TypeX)
  inferOutputType : Option TypeX → Option TypeX

/-- The external typehints operations used by the generic-binding branch:
`match_type_variables`, `bind_type_variables`, and the `Any` type used
when the transform does not have exactly one input. -/
structure TypeOracle (Subst : Type) where
  matchTV : TypeX → Option TypeX → Subst
  bindTV : TypeX → Subst → TypeX
  anyT : TypeX

/-- The exception raised by an `apply` call. -/
inductive ApplyError where
  /-- `RuntimeError('Transform with label ... already applied. ...')`. -/
  | duplicateLabel (fullLabel : String)
  /-- `NotImplementedError('Unable to extract PValue inputs ...')`. -/
  | inputExtraction
  /-- `TypeCheckError` from `transform.type_check_inputs`. -/
  | typeCheckInputs
  /-- `TypeCheckError` from `transform.type_check_outputs`. -/
  | typeCheckOutputs
  /-- `TypeCheckError('... no output type-hint was found for the PTransform
  <name>(<full label>)')`. -/
  | missingOutputTypeHint (ptransformName : String)
deriving DecidableEq, Repr

/-- `options is not None and options.pipeline_type_check`. -/
def typeCheckOn (p : PState) : Bool :=
  match p.options with
  | some o => o.pipeline_type_check
  | none => false

/-- `options is not None and options.type_check_strictness == 'ALL_REQUIRED'`. -/
def strictnessAllRequired (p : PState) : Bool :=
  match p.options with
  | some o => o.type_check_strictness = "ALL_REQUIRED"
  | none => false

/-- Mutation of the value object with id `v` (identity-keyed, as Python
attribute assignment on the object). -/
def setValInfo (g : Graph) (v : VId) (f : ValInfo → ValInfo) : Graph :=
  { g with vals := g.vals.map (fun x => (x.1, if x.1 = v then f x.2 else x.2)) }

/-- Mutation of the `AppliedPTransform` object with id `n`. -/
def setNodeInfo (g : Graph) (n : NodeId) (f : NodeInfo → NodeInfo) : Graph :=
  { g with nodes := g.nodes.map (fun x => (x.1, if x.1 = n then f x.2 else x.2)) }

/-- `input_element_type = inputs[0].element_type if len(inputs) == 1 else
typehints.Any`. -/
def inputElementType {Subst : Type} (oracle : TypeOracle Subst) (g : Graph)
    (inputs : List VId) : Option TypeX :=
  match inputs with
  | [v] => elementTypeOf g v
  | _ => some oracle.anyT

/-- `if result.producer is None: result.producer = child` — the producer
is set only for a leaf value whose producer is still unset. -/
def producerStep (childId : NodeId) (g : Graph) (v : VId) : Graph :=
  if valProducer g v = none then
    setValInfo g v (fun i => { i with producer := some childId })
  else g

/-- `self._current_transform().add_output(result)`. -/
def outputStep (cur : NodeId) (g : Graph) (v : VId) : Graph :=
  setNodeInfo g cur (fun nd => { nd with outputs := nd.outputs ++ [v] })

/-- The element-type inference of `pipeline.py:223-243`: when type
checking (`tc`) is on and the result is a `PCollection` with no element
type, either bind the declared generic output type against the single
input's concrete type, assign the declared output type directly, or ask
the transform to infer one. -/
def inferStep {Subst : Type} (oracle : TypeOracle Subst) (t : Transform)
    (inputs : List VId) (tc : Bool) (g : Graph) (v : VId) : Graph :=
  if tc ∧ isPColl g v ∧ elementTypeOf g v = none then
    let inElem := inputElementType oracle g inputs
    match t.simpleOutputType with
    | some declaredOut =>
      match t.inputTypes with
      | some (declaredIn :: _) =>
        let ty := oracle.bindTV declaredOut (oracle.matchTV declaredIn inElem)
        setValInfo g v (fun i => { i with elementType := some ty })
      | _ =>
        setValInfo g v (fun i => { i with elementType := some declaredOut })
    | none =>
      let ty := t.inferOutputType inElem
      setValInfo g v (fun i => { i with elementType := ty })
  else g

/-- The graph effect of one iteration of
`for result in ptransform.GetPValues().visit(pvalueish_result)`:
set the producer only if still unset, register the result as an output of
the current transform (`cur`, the freshly pushed child), and run the
output-type inference. -/
def processResultG {Subst : Type} (oracle : TypeOracle Subst) (t : Transform)
    (childId : NodeId) (inputs : List VId) (tc : Bool) (cur : NodeId)
    (g : Graph) (v : VId) : Graph :=
  inferStep oracle t inputs tc (outputStep cur (producerStep childId g v) v) v

/-- One iteration of the result loop as a pipeline-state transformer: only
the graph changes (the loop touches no other pipeline field). -/
def processResult {Subst : Type} (oracle : TypeOracle Subst) (t : Transform)
    (childId : NodeId) (inputs : List VId) (p : PState) (v : VId) : PState :=
  { p with
    graph := processResultG oracle t childId inputs (typeCheckOn p) (currentTransform p) p.graph v }

/-- `Pipeline.apply(transform, pvalueish)` as a state transformer.

External collaborators are parameters: `fmt` is
`format_full_label(current, transform)` as a function of the current
node's full label and the transform's own label; `extracted` is the
outcome of flattening `transform._extract_input_pvalues(pvalueish)` into
a tuple of `PValue` leaves (`none` = the extraction/`isinstance` checks
fail); `inOk`/`outOk` are whether `type_check_inputs` /
`type_check_outputs` pass; `results` is the flattened list of
`PValue`/`DoOutputsTuple` objects that `GetPValues().visit` finds in the
structure returned by `runner.apply`.  The Python `raise` propagates with
all prior mutations kept, so the result pairs the outcome with the final
state. -/
def applyStep {Subst : Type} (oracle : TypeOracle Subst)
    (fmt : String → String → String) (p : PState) (t : Transform)
    (extracted : Option (List VId)) (inOk outOk : Bool)
    (results : List VId) : Except ApplyError (List VId) × PState :=
  let parentId := currentTransform p
  let fullLabel := fmt (currentFullLabel p) t.label
  if fullLabel ∈ p.applied_labels then
    (.error (.duplicateLabel fullLabel), p)
  else
    let p := { p with applied_labels := fullLabel :: p.applied_labels }
    match extracted with
    | none => (.error .inputExtraction, p)
    | some inputs =>
      let childId := p.nextNode
      let child : NodeInfo :=
        { parent := some parentId, transformLabel := some t.label
          fullLabel := fullLabel, inputs := inputs, sideInputs := t.sideInputs
          outputs := [], parts := [] }
      let p :=
        { p with
          graph := setNodeInfo
            { p.graph with nodes := p.graph.nodes ++ [(childId, child)] }
            parentId (fun nd => { nd with parts := nd.parts ++ [childId] })
          nextNode := p.nextNode + 1 }
      let p := { p with transforms_stack := childId :: p.transforms_stack }
      if typeCheckOn p ∧ ¬inOk then (.error .typeCheckInputs, p)
      else if typeCheckOn p ∧ ¬outOk then (.error .typeCheckOutputs, p)
      else
        let p := results.foldl (processResult oracle t childId inputs) p
        if strictnessAllRequired p ∧ t.outputTypes = none then
          (.error (.missingOutputTypeHint (t.label ++ "(" ++ fullLabel ++ ")")), p)
        else
          (.ok results, { p with transforms_stack := p.transforms_stack.tail })

/-- `format_full_label` modelled from the spec: the parent context's label
prefix, a separator, and the transform's own label, with an empty root
prefix contributing nothing.  (The transforms module that defines it is
not part of this source tree; every theorem that can be is stated for an
arbitrary `fmt` instead.) -/
def formatFullLabel (parentLabel label : String) : String :=
  if parentLabel = "" then label else parentLabel ++ "/" ++ label

/-- A trivial instantiation of the external typehints operations, used
only by concrete witnesses. -/
def unitOracle : TypeOracle Unit :=
  { matchTV := fun _ _ => (), bindTV := fun x _ => x, anyT := 0 }

/-! ## Concrete pipelines -/

/-- A primitive transform with the given label and no type hints. -/
def plainTransform (label : String) : Transform :=
  { label := label, sideInputs := [], inputTypes := none
    simpleOutputType := none, outputTypes := none
    inferOutputType := fun _ => none }

/-- A freshly created `PCollection`: no producer, no element type. -/
def pcollInfo : ValInfo := { producer := none, elementType := none, kind := .pcoll }

/-- Chain pipeline, step 1: `TransformA` (label "A") applied at the root,
producing the fresh value `101` (V1). -/
def chainP1 : PState :=
  (applyStep unitOracle formatFullLabel (addVal (initPState none) 101 pcollInfo)
    (plainTransform "A") (some []) true true [101]).2

/-- Chain pipeline, step 2: `TransformB` (label "B") consuming V1 and
producing the fresh value `102` (V2). -/
def chainP2 : PState :=
  (applyStep unitOracle formatFullLabel (addVal chainP1 102 pcollInfo)
    (plainTransform "B") (some [101]) true true [102]).2

/-- Diamond pipeline: producer `P` (label "P") yields value `201`; two
downstream transforms `A` and `B` both consume `201`. -/
def diamondP : PState :=
  let p1 := (applyStep unitOracle formatFullLabel (addVal (initPState none) 201 pcollInfo)
    (plainTransform "P") (some []) true true [201]).2
  let p2 := (applyStep unitOracle formatFullLabel (addVal p1 202 pcollInfo)
    (plainTransform "A") (some [201]) true true [202]).2
  (applyStep unitOracle formatFullLabel (addVal p2 203 pcollInfo)
    (plainTransform "B") (some [201]) true true [203]).2

/-! ## Association-list lemmas -/

theorem alookup_map_update {β : Type}
    (l : List (Nat × β)) (k : Nat) (f : β → β) (m : Nat) :
    alookup (l.map (fun x => (x.1, if x.1 = k then f x.2 else x.2))) m =
      if m = k then (alookup l m).map f else alookup l m := by
  induction l with
  | nil => simp [alookup]
  | cons a t ih =>
    obtain ⟨a1, b1⟩ := a
    by_cases hak : a1 = k
    · by_cases hma : m = a1
      · subst hak; subst hma; simp [alookup]
      · have hmk : ¬m = k := by rw [← hak]; exact hma
        simp [alookup, hak, hma, hmk, ih]
    · by_cases hma : m = a1
      · have hm : ¬m = k := by rw [hma]; exact hak
        simp [alookup, hak, hma, hm]
      · simp [alookup, hak, hma, ih]

theorem alookup_append_single {β : Type}
    (l : List (Nat × β)) (c : Nat) (x : β) (m : Nat) :
    alookup (l ++ [(c, x)]) m =
      match alookup l m with
      | some y => some y
      | none => if m = c then some x else none := by
  induction l with
  | nil => by_cases hmc : m = c <;> simp [alookup, hmc]
  | cons a t ih =>
    obtain ⟨a1, b1⟩ := a
    by_cases hma : m = a1
    · simp [alookup, hma]
    · simp [alookup, hma, ih]

/-! ## Effects of the graph update primitives -/

theorem node?_setValInfo (g : Graph) (v : VId) (f : ValInfo → ValInfo) (n : NodeId) :
    (setValInfo g v f).node? n = g.node? n := rfl

theorem val?_setNodeInfo (g : Graph) (n : NodeId) (f : NodeInfo → NodeInfo) (v : VId) :
    (setNodeInfo g n f).val? v = g.val? v := rfl

theorem val?_setValInfo (g : Graph) (v : VId) (f : ValInfo → ValInfo) (w : VId) :
    (setValInfo g v f).val? w = if w = v then (g.val? w).map f else g.val? w :=
  alookup_map_update g.vals v f w

theorem node?_setNodeInfo (g : Graph) (n : NodeId) (f : NodeInfo → NodeInfo) (m : NodeId) :
    (setNodeInfo g n f).node? m = if m = n then (g.node? m).map f else g.node? m :=
  alookup_map_update g.nodes n f m

theorem valProducer_setNodeInfo (g : Graph) (n : NodeId) (f : NodeInfo → NodeInfo) (v : VId) :
    valProducer (setNodeInfo g n f) v = valProducer g v := by
  simp [valProducer, val?_setNodeInfo]

theorem elementTypeOf_setNodeInfo (g : Graph) (n : NodeId) (f : NodeInfo → NodeInfo) (v : VId) :
    elementTypeOf (setNodeInfo g n f) v = elementTypeOf g v := by
  simp [elementTypeOf, val?_setNodeInfo]

theorem isPColl_setNodeInfo (g : Graph) (n : NodeId) (f : NodeInfo → NodeInfo) (v : VId) :
    isPColl (setNodeInfo g n f) v = isPColl g v := by
  simp [isPColl, val?_setNodeInfo]

theorem valProducer_setElemTy (g : Graph) (v : VId) (x : Option TypeX) (w : VId) :
    valProducer (setValInfo g v (fun i => { i with elementType := x })) w
      = valProducer g w := by
  by_cases hw : w = v
  · subst hw
    simp only [valProducer, val?_setValInfo, if_pos rfl]
    cases g.val? w with
    | none => rfl
    | some i => rfl
  · simp [valProducer, val?_setValInfo, hw]

theorem elementTypeOf_setProdTy (g : Graph) (v : VId) (o : Option NodeId) (w : VId) :
    elementTypeOf (setValInfo g v (fun i => { i with producer := o })) w
      = elementTypeOf g w := by
  by_cases hw : w = v
  · subst hw
    simp only [elementTypeOf, val?_setValInfo, if_pos rfl]
    cases g.val? w with
    | none => rfl
    | some i => rfl
  · simp [elementTypeOf, val?_setValInfo, hw]

theorem isPColl_setProdTy (g : Graph) (v : VId) (o : Option NodeId) (w : VId) :
    isPColl (setValInfo g v (fun i => { i with producer := o })) w = isPColl g w := by
  by_cases hw : w = v
  · subst hw
    simp only [isPColl, val?_setValInfo, if_pos rfl]
    cases g.val? w with
    | none => rfl
    | some i => rfl
  · simp [isPColl, val?_setValInfo, hw]

theorem isPColl_setElemTy (g : Graph) (v : VId) (x : Option TypeX) (w : VId) :
    isPColl (setValInfo g v (fun i => { i with elementType := x })) w = isPColl g w := by
  by_cases hw : w = v
  · subst hw
    simp only [isPColl, val?_setValInfo, if_pos rfl]
    cases g.val? w with
    | none => rfl
    | some i => rfl
  · simp [isPColl, val?_setValInfo, hw]

theorem valProducer_setValInfo_ne (g : Graph) (v : VId) (f : ValInfo → ValInfo)
    (w : VId) (hw : w ≠ v) :
    valProducer (setValInfo g v f) w = valProducer g w := by
  simp [valProducer, val?_setValInfo, hw]

theorem valProducer_setProducer_self (g : Graph) (v : VId) (c : NodeId) (i : ValInfo)
    (hv : g.val? v = some i) :
    valProducer (setValInfo g v (fun i => { i with producer := some c })) v = some c := by
  simp [valProducer, val?_setValInfo, hv]

theorem elementTypeOf_setElem_self (g : Graph) (v : VId) (x : Option TypeX) (i : ValInfo)
    (hv : g.val? v = some i) :
    elementTypeOf (setValInfo g v (fun i => { i with elementType := x })) v = x := by
  simp [elementTypeOf, val?_setValInfo, hv]

/-! ## The result loop -/

theorem foldl_processResult {Subst : Type} (oracle : TypeOracle Subst) (t : Transform)
    (c : NodeId) (ins : List VId) (results : List VId) (p : PState) :
    results.foldl (processResult oracle t c ins) p =
      { p with
        graph := results.foldl
          (processResultG oracle t c ins (typeCheckOn p) (currentTransform p)) p.graph } := by
  induction results generalizing p with
  | nil => rfl
  | cons v vs ih =>
    simp only [List.foldl_cons]
    rw [ih]
    rfl

/-! Per-step lemmas for the result loop. -/

theorem valProducer_inferStep {Subst : Type} (oracle : TypeOracle Subst) (t : Transform)
    (ins : List VId) (tc : Bool) (g : Graph) (v w : VId) :
    valProducer (inferStep oracle t ins tc g v) w = valProducer g w := by
  unfold inferStep
  dsimp only
  split
  · split
    · split
      · rw [valProducer_setElemTy]
      · rw [valProducer_setElemTy]
    · rw [valProducer_setElemTy]
  · rfl

theorem node?_inferStep {Subst : Type} (oracle : TypeOracle Subst) (t : Transform)
    (ins : List VId) (tc : Bool) (g : Graph) (v : VId) (m : NodeId) :
    (inferStep oracle t ins tc g v).node? m = g.node? m := by
  unfold inferStep
  dsimp only
  split
  · split
    · split
      · rw [node?_setValInfo]
      · rw [node?_setValInfo]
    · rw [node?_setValInfo]
  · rfl

theorem val?_isSome_setValInfo (g : Graph) (v : VId) (f : ValInfo → ValInfo) (w : VId) :
    ((setValInfo g v f).val? w).isSome = ((g.val? w)).isSome := by
  rw [val?_setValInfo]
  split
  · cases g.val? w <;> rfl
  · rfl

theorem val?_isSome_inferStep {Subst : Type} (oracle : TypeOracle Subst) (t : Transform)
    (ins : List VId) (tc : Bool) (g : Graph) (v w : VId) :
    ((inferStep oracle t ins tc g v).val? w).isSome = ((g.val? w)).isSome := by
  unfold inferStep
  dsimp only
  split
  · split
    · split
      · rw [val?_isSome_setValInfo]
      · rw [val?_isSome_setValInfo]
    · rw [val?_isSome_setValInfo]
  · rfl

theorem valProducer_outputStep (cur : NodeId) (g : Graph) (v w : VId) :
    valProducer (outputStep cur g v) w = valProducer g w :=
  valProducer_setNodeInfo g cur _ w

theorem val?_outputStep (cur : NodeId) (g : Graph) (v w : VId) :
    (outputStep cur g v).val? w = g.val? w :=
  val?_setNodeInfo g cur _ w

theorem node?_outputStep (cur : NodeId) (g : Graph) (v : VId) (m : NodeId) :
    (outputStep cur g v).node? m =
      if m = cur then (g.node? m).map (fun nd => { nd with outputs := nd.outputs ++ [v] })
      else g.node? m :=
  node?_setNodeInfo g cur _ m

theorem node?_producerStep (c : NodeId) (g : Graph) (v : VId) (m : NodeId) :
    (producerStep c g v).node? m = g.node? m := by
  unfold producerStep
  split
  · rw [node?_setValInfo]
  · rfl

theorem val?_isSome_producerStep (c : NodeId) (g : Graph) (v w : VId) :
    ((producerStep c g v).val? w).isSome = ((g.val? w)).isSome := by
  unfold producerStep
  split
  · rw [val?_isSome_setValInfo]
  · rfl

/-- Full characterization of the producer field after the producer-setting
step: the value gets producer `c` exactly when it had none (and exists);
nothing else changes. -/
theorem valProducer_producerStep_eq (c : NodeId) (g : Graph) (v w : VId) :
    valProducer (producerStep c g v) w =
      if w = v then
        match g.val? v with
        | none => none
        | some i => some (i.producer.getD c)
      else valProducer g w := by
  unfold producerStep
  by_cases hpn : valProducer g v = none
  · rw [if_pos hpn]
    by_cases hw : w = v
    · subst hw
      rw [if_pos rfl]
      cases hv : g.val? w with
      | none => simp [valProducer, val?_setValInfo, hv]
      | some i =>
        have hpi : i.producer = none := by
          simp only [valProducer, hv] at hpn; exact hpn
        rw [valProducer_setProducer_self g w c i hv]
        simp [hpi]
    · rw [if_neg hw, valProducer_setValInfo_ne _ _ _ _ hw]
  · rw [if_neg hpn]
    by_cases hw : w = v
    · subst hw
      rw [if_pos rfl]
      cases hv : g.val? w with
      | none => exact absurd (by simp [valProducer, hv]) hpn
      | some i =>
        cases hpi : i.producer with
        | none => exact absurd (by simp [valProducer, hv, hpi]) hpn
        | some q => simp only [valProducer, hv, hpi]; simp
    · rw [if_neg hw]

/-- Full characterization of the producer field after one result-loop
iteration. -/
theorem valProducer_processResultG_eq {Subst : Type} (oracle : TypeOracle Subst)
    (t : Transform) (c : NodeId) (ins : List VId) (tc : Bool) (cur : NodeId)
    (g : Graph) (u w : VId) :
    valProducer (processResultG oracle t c ins tc cur g u) w =
      if w = u then
        match g.val? u with
        | none => none
        | some i => some (i.producer.getD c)
      else valProducer g w := by
  unfold processResultG
  rw [valProducer_inferStep, valProducer_outputStep, valProducer_producerStep_eq]

/-- The result loop never overwrites an already-set producer (one step). -/
theorem valProducer_processResultG_preserve {Subst : Type} (oracle : TypeOracle Subst)
    (t : Transform) (c : NodeId) (ins : List VId) (tc : Bool) (cur : NodeId)
    (g : Graph) (u w : VId) (q : NodeId) (h : valProducer g w = some q) :
    valProducer (processResultG oracle t c ins tc cur g u) w = some q := by
  rw [valProducer_processResultG_eq]
  split
  · next hw =>
    subst hw
    cases hv : g.val? w with
    | none => simp only [valProducer, hv] at h; cases h
    | some i =>
      simp only [valProducer, hv] at h
      simp [h]
  · exact h

/-- The `AppliedPTransform` records after one result-loop iteration: the
current transform's `outputs` gains the value, everything else is
untouched. -/
theorem node?_processResultG {Subst : Type} (oracle : TypeOracle Subst)
    (t : Transform) (c : NodeId) (ins : List VId) (tc : Bool) (cur : NodeId)
    (g : Graph) (u : VId) (m : NodeId) :
    (processResultG oracle t c ins tc cur g u).node? m =
      if m = cur then (g.node? m).map (fun nd => { nd with outputs := nd.outputs ++ [u] })
      else g.node? m := by
  unfold processResultG
  rw [node?_inferStep, node?_outputStep, node?_producerStep]

theorem val?_isSome_processResultG {Subst : Type} (oracle : TypeOracle Subst)
    (t : Transform) (c : NodeId) (ins : List VId) (tc : Bool) (cur : NodeId)
    (g : Graph) (u w : VId) :
    ((processResultG oracle t c ins tc cur g u).val? w).isSome = ((g.val? w)).isSome := by
  unfold processResultG
  rw [val?_isSome_inferStep, val?_outputStep, val?_isSome_producerStep]

/-- Producer preservation across the whole result loop. -/
theorem valProducer_foldl_processResultG {Subst : Type} (oracle : TypeOracle Subst)
    (t : Transform) (c : NodeId) (ins : List VId) (tc : Bool) (cur : NodeId)
    (results : List VId) (g : Graph) (w : VId) (q : NodeId)
    (h : valProducer g w = some q) :
    valProducer (results.foldl (processResultG oracle t c ins tc cur) g) w = some q := by
  induction results generalizing g with
  | nil => exact h
  | cons u us ih =>
    exact ih _ (valProducer_processResultG_preserve oracle t c ins tc cur g u w q h)

/-- A result value whose producer is unset gets the child as producer by
the result loop (and keeps it). -/
theorem valProducer_foldl_assign {Subst : Type} (oracle : TypeOracle Subst)
    (t : Transform) (c : NodeId) (ins : List VId) (tc : Bool) (cur : NodeId)
    (results : List VId) (g : Graph) (v : VId) (i : ValInfo)
    (hmem : v ∈ results) (hv : g.val? v = some i) (hnone : valProducer g v = none) :
    valProducer (results.foldl (processResultG oracle t c ins tc cur) g) v = some c := by
  induction results generalizing g i with
  | nil => cases hmem
  | cons u us ih =>
    rw [List.foldl_cons]
    by_cases hvu : v = u
    · subst hvu
      have hstep : valProducer (processResultG oracle t c ins tc cur g v) v = some c := by
        rw [valProducer_processResultG_eq, if_pos rfl, hv]
        have hpi : i.producer = none := by
          simp only [valProducer, hv] at hnone; exact hnone
        simp [hpi]
      exact valProducer_foldl_processResultG oracle t c ins tc cur us _ v c hstep
    · have hmem' : v ∈ us := by
        cases hmem with
        | head => exact absurd rfl hvu
        | tail _ h => exact h
      have hpres : valProducer (processResultG oracle t c ins tc cur g u) v = none := by
        rw [valProducer_processResultG_eq, if_neg hvu]
        exact hnone
      have hsome : ((processResultG oracle t c ins tc cur g u).val? v).isSome := by
        rw [val?_isSome_processResultG, hv]
        rfl
      obtain ⟨i2, hi2⟩ := Option.isSome_iff_exists.mp hsome
      exact ih _ i2 hmem' hi2 hpres

/-- The node records after the whole result loop: the current transform's
outputs gain all the results, in order; all other records are untouched. -/
theorem node?_foldl_processResultG {Subst : Type} (oracle : TypeOracle Subst)
    (t : Transform) (c : NodeId) (ins : List VId) (tc : Bool) (cur : NodeId)
    (results : List VId) (g : Graph) (m : NodeId) :
    (results.foldl (processResultG oracle t c ins tc cur) g).node? m =
      if m = cur then (g.node? m).map (fun nd => { nd with outputs := nd.outputs ++ results })
      else g.node? m := by
  induction results generalizing g with
  | nil =>
    split
    · cases hnd : g.node? m <;> simp [hnd]
    · rfl
  | cons u us ih =>
    rw [List.foldl_cons, ih, node?_processResultG]
    by_cases hm : m = cur
    · rw [if_pos hm, if_pos hm, if_pos hm]
      cases hnd : g.node? m <;> simp [hnd]
    · rw [if_neg hm, if_neg hm, if_neg hm]

/-! ## Lemmas about `Pipeline.apply` -/

/-- The computed full label of an `apply` call on state `p`. -/
def applyLabel (fmt : String → String → String) (p : PState) (t : Transform) : String :=
  fmt (currentFullLabel p) t.label

/-- A duplicate full label makes `apply` raise before any mutation. -/
theorem applyStep_duplicate {Subst : Type} (oracle : TypeOracle Subst)
    (fmt : String → String → String) (p : PState) (t : Transform)
    (extracted : Option (List VId)) (inOk outOk : Bool) (results : List VId)
    (h : applyLabel fmt p t ∈ p.applied_labels) :
    applyStep oracle fmt p t extracted inOk outOk results =
      (.error (.duplicateLabel (applyLabel fmt p t)), p) := by
  unfold applyLabel at h
  unfold applyStep applyLabel
  dsimp only
  rw [if_pos h]

/-- Whatever the outcome, after an `apply` call its full label is in the
pipeline's label set. -/
theorem applyStep_label_registered {Subst : Type} (oracle : TypeOracle Subst)
    (fmt : String → String → String) (p : PState) (t : Transform)
    (extracted : Option (List VId)) (inOk outOk : Bool) (results : List VId) :
    applyLabel fmt p t ∈ (applyStep oracle fmt p t extracted inOk outOk results).2.applied_labels := by
  unfold applyStep
  dsimp only
  split
  · next h => exact h
  · match extracted with
    | none => exact List.mem_cons_self _ _
    | some inputs =>
      dsimp only
      split
      · exact List.mem_cons_self _ _
      · split
        · exact List.mem_cons_self _ _
        · rw [foldl_processResult]
          split
          · exact List.mem_cons_self _ _
          · exact List.mem_cons_self _ _

/-- The label set never shrinks across an `apply` call. -/
theorem applyStep_labels_monotone {Subst : Type} (oracle : TypeOracle Subst)
    (fmt : String → String → String) (p : PState) (t : Transform)
    (extracted : Option (List VId)) (inOk outOk : Bool) (results : List VId)
    (l : String) (h : l ∈ p.applied_labels) :
    l ∈ (applyStep oracle fmt p t extracted inOk outOk results).2.applied_labels := by
  unfold applyStep
  dsimp only
  split
  · exact h
  · match extracted with
    | none => exact List.mem_cons_of_mem _ h
    | some inputs =>
      dsimp only
      split
      · exact List.mem_cons_of_mem _ h
      · split
        · exact List.mem_cons_of_mem _ h
        · rw [foldl_processResult]
          split
          · exact List.mem_cons_of_mem _ h
          · exact List.mem_cons_of_mem _ h

/-- Claim C1: for every pipeline and every transform application, if the
computed full label is already in the pipeline's set of applied labels,
`Pipeline.apply` fails with the duplicate-label `RuntimeError` and the
state is returned unchanged (in particular no new `AppliedPTransform`
node is created); and applying two transform instances that resolve to
the same full label makes the second `apply` fail with that error. -/
theorem claimC1 :
    (∀ {Subst : Type} (oracle : TypeOracle Subst) (fmt : String → String → String)
        (p : PState) (t : Transform) (extracted : Option (List VId))
        (inOk outOk : Bool) (results : List VId),
      applyLabel fmt p t ∈ p.applied_labels →
        applyStep oracle fmt p t extracted inOk outOk results =
          (.error (.duplicateLabel (applyLabel fmt p t)), p)) ∧
    (∀ {Subst : Type} (oracle : TypeOracle Subst) (fmt : String → String → String)
        (p : PState) (t₁ t₂ : Transform) (e₁ e₂ : Option (List VId))
        (i₁ o₁ i₂ o₂ : Bool) (r₁ r₂ : List VId)
        (res₁ : Except ApplyError (List VId)) (p₁ : PState),
      applyStep oracle fmt p t₁ e₁ i₁ o₁ r₁ = (res₁, p₁) →
      applyLabel fmt p₁ t₂ = applyLabel fmt p t₁ →
        applyStep oracle fmt p₁ t₂ e₂ i₂ o₂ r₂ =
          (.error (.duplicateLabel (applyLabel fmt p₁ t₂)), p₁)) := by
  constructor
  · intro Subst oracle fmt p t extracted inOk outOk results h
    exact applyStep_duplicate oracle fmt p t extracted inOk outOk results h
  · intro Subst oracle fmt p t₁ t₂ e₁ e₂ i₁ o₁ i₂ o₂ r₁ r₂ res₁ p₁ h1 hsame
    have hmem : applyLabel fmt p t₁ ∈ p₁.applied_labels := by
      have := applyStep_label_registered oracle fmt p t₁ e₁ i₁ o₁ r₁
      rw [h1] at this
      exact this
    exact applyStep_duplicate oracle fmt p₁ t₂ e₂ i₂ o₂ r₂ (by rw [hsame]; exact hmem)

/-- Witness for C1 on the concrete chain pipeline: re-applying a transform
labelled "A" (already applied) fails with the duplicate-label error and
leaves the pipeline state untouched. -/
theorem claimC1_witness :
    applyStep unitOracle formatFullLabel chainP2 (plainTransform "A")
      (some []) true true [105] = (.error (.duplicateLabel "A"), chainP2) := by
  have h := claimC1.1 unitOracle formatFullLabel chainP2 (plainTransform "A")
    (some []) true true [105] (by decide)
  rw [show applyLabel formatFullLabel chainP2 (plainTransform "A") = "A" by decide] at h
  exact h

/-- The child `AppliedPTransform(current, transform, full_label, inputs)`
as created by `apply`. -/
def mkChild (parentId : NodeId) (t : Transform) (fl : String) (inputs : List VId) : NodeInfo :=
  { parent := some parentId, transformLabel := some t.label, fullLabel := fl
    inputs := inputs, sideInputs := t.sideInputs, outputs := [], parts := [] }

/-- The pipeline state right after `apply` has registered the label,
created and attached the child node, and pushed it on the stack. -/
def applyPushed (fmt : String → String → String) (p : PState) (t : Transform)
    (inputs : List VId) : PState :=
  { graph :=
      setNodeInfo
        { vals := p.graph.vals
          nodes := p.graph.nodes ++
            [(p.nextNode, mkChild (currentTransform p) t (applyLabel fmt p t) inputs)] }
        (currentTransform p) (fun nd => { nd with parts := nd.parts ++ [p.nextNode] })
    transforms_stack := p.nextNode :: p.transforms_stack
    applied_labels := applyLabel fmt p t :: p.applied_labels
    pvalRegistry := p.pvalRegistry
    options := p.options
    nextNode := p.nextNode + 1 }

/-- The pipeline state after the result loop has also run. -/
def applyFolded {Subst : Type} (oracle : TypeOracle Subst)
    (fmt : String → String → String) (p : PState) (t : Transform)
    (inputs results : List VId) : PState :=
  { applyPushed fmt p t inputs with
    graph := results.foldl
      (processResultG oracle t p.nextNode inputs (typeCheckOn p) p.nextNode)
      (applyPushed fmt p t inputs).graph }

/-- Shape of a non-duplicate `apply` call with successfully extracted
inputs: the four remaining outcomes with their exact final states. -/
theorem applyStep_shape {Subst : Type} (oracle : TypeOracle Subst)
    (fmt : String → String → String) (p : PState) (t : Transform)
    (inputs : List VId) (inOk outOk : Bool) (results : List VId)
    (hdup : applyLabel fmt p t ∉ p.applied_labels) :
    applyStep oracle fmt p t (some inputs) inOk outOk results =
      if typeCheckOn p ∧ ¬inOk then
        (.error .typeCheckInputs, applyPushed fmt p t inputs)
      else if typeCheckOn p ∧ ¬outOk then
        (.error .typeCheckOutputs, applyPushed fmt p t inputs)
      else if strictnessAllRequired p ∧ t.outputTypes = none then
        (.error (.missingOutputTypeHint (t.label ++ "(" ++ applyLabel fmt p t ++ ")")),
          applyFolded oracle fmt p t inputs results)
      else
        (.ok results,
          { applyFolded oracle fmt p t inputs results with
            transforms_stack := p.transforms_stack }) := by
  unfold applyLabel at hdup
  unfold applyStep
  dsimp only
  rw [if_neg hdup, foldl_processResult]
  rfl

/-- Shape of a non-duplicate `apply` call whose input extraction fails:
the label stays registered, nothing else changed. -/
theorem applyStep_extract_fail {Subst : Type} (oracle : TypeOracle Subst)
    (fmt : String → String → String) (p : PState) (t : Transform)
    (inOk outOk : Bool) (results : List VId)
    (hdup : applyLabel fmt p t ∉ p.applied_labels) :
    applyStep oracle fmt p t none inOk outOk results =
      (.error .inputExtraction,
        { p with applied_labels := applyLabel fmt p t :: p.applied_labels }) := by
  unfold applyLabel at hdup
  unfold applyStep
  dsimp only
  rw [if_neg hdup]
  rfl

theorem valProducer_applyPushed (fmt : String → String → String) (p : PState)
    (t : Transform) (inputs : List VId) (v : VId) :
    valProducer (applyPushed fmt p t inputs).graph v = valProducer p.graph v := by
  unfold applyPushed
  dsimp only
  rw [valProducer_setNodeInfo]
  rfl

theorem val?_applyPushed (fmt : String → String → String) (p : PState)
    (t : Transform) (inputs : List VId) (v : VId) :
    (applyPushed fmt p t inputs).graph.val? v = p.graph.val? v := by
  unfold applyPushed
  dsimp only
  rw [val?_setNodeInfo]
  rfl

/-- The parent record after the push: its `parts` gained the child id. -/
theorem node?_applyPushed_parent (fmt : String → String → String) (p : PState)
    (t : Transform) (inputs : List VId) (nd : NodeInfo)
    (hpar : p.graph.node? (currentTransform p) = some nd) :
    (applyPushed fmt p t inputs).graph.node? (currentTransform p) =
      some { nd with parts := nd.parts ++ [p.nextNode] } := by
  unfold applyPushed
  dsimp only
  rw [node?_setNodeInfo, if_pos rfl]
  have happ : (Graph.node?
      { vals := p.graph.vals
        nodes := p.graph.nodes ++
          [(p.nextNode, mkChild (currentTransform p) t (applyLabel fmt p t) inputs)] }
      (currentTransform p)) = some nd := by
    unfold Graph.node? at hpar ⊢
    rw [alookup_append_single, hpar]
  rw [happ]
  rfl

/-- The child record after the push is exactly the freshly created node. -/
theorem node?_applyPushed_child (fmt : String → String → String) (p : PState)
    (t : Transform) (inputs : List VId)
    (hne : currentTransform p ≠ p.nextNode)
    (hfresh : p.graph.node? p.nextNode = none) :
    (applyPushed fmt p t inputs).graph.node? p.nextNode =
      some (mkChild (currentTransform p) t (applyLabel fmt p t) inputs) := by
  unfold applyPushed
  dsimp only
  rw [node?_setNodeInfo, if_neg (fun h => hne h.symm)]
  unfold Graph.node? at hfresh ⊢
  rw [alookup_append_single, hfresh, if_pos rfl]

/-- Claim C5: a value node's producer, once set, is never overwritten by
`Pipeline.apply` (regardless of outcome), and an output value whose
producer is still unset is assigned the newly created child node as
producer. -/
theorem claimC5 :
    (∀ {Subst : Type} (oracle : TypeOracle Subst) (fmt : String → String → String)
        (p : PState) (t : Transform) (e : Option (List VId)) (inOk outOk : Bool)
        (results : List VId) (v : VId) (q : NodeId),
      valProducer p.graph v = some q →
        valProducer (applyStep oracle fmt p t e inOk outOk results).2.graph v = some q) ∧
    (∀ {Subst : Type} (oracle : TypeOracle Subst) (fmt : String → String → String)
        (p : PState) (t : Transform) (inputs : List VId) (inOk outOk : Bool)
        (results : List VId) (v : VId) (i : ValInfo),
      applyLabel fmt p t ∉ p.applied_labels →
      ¬(typeCheckOn p ∧ ¬inOk) → ¬(typeCheckOn p ∧ ¬outOk) →
      v ∈ results → p.graph.val? v = some i → i.producer = none →
        valProducer (applyStep oracle fmt p t (some inputs) inOk outOk results).2.graph v
          = some p.nextNode) := by
  constructor
  · intro Subst oracle fmt p t e inOk outOk results v q h
    by_cases hdup : applyLabel fmt p t ∈ p.applied_labels
    · rw [applyStep_duplicate oracle fmt p t e inOk outOk results hdup]
      exact h
    · match e with
      | none =>
        rw [applyStep_extract_fail oracle fmt p t inOk outOk results hdup]
        exact h
      | some inputs =>
        rw [applyStep_shape oracle fmt p t inputs inOk outOk results hdup]
        split
        · rw [valProducer_applyPushed]; exact h
        · split
          · rw [valProducer_applyPushed]; exact h
          · split
            · unfold applyFolded
              dsimp only
              apply valProducer_foldl_processResultG
              rw [valProducer_applyPushed]; exact h
            · unfold applyFolded
              dsimp only
              apply valProducer_foldl_processResultG
              rw [valProducer_applyPushed]; exact h
  · intro Subst oracle fmt p t inputs inOk outOk results v i hdup hin hout hmem hv hpnone
    rw [applyStep_shape oracle fmt p t inputs inOk outOk results hdup]
    rw [if_neg hin, if_neg hout]
    have hassign :
        valProducer (applyFolded oracle fmt p t inputs results).graph v = some p.nextNode := by
      unfold applyFolded
      dsimp only
      apply valProducer_foldl_assign (i := i)
      · exact hmem
      · rw [val?_applyPushed]; exact hv
      · rw [valProducer_applyPushed]
        simp [valProducer, hv, hpnone]
    split
    · exact hassign
    · exact hassign

/-- Witness for C5: on the chain pipeline, applying a pass-through
transform that returns the existing value `101` leaves its producer at
node 1, and the construction of `chainP2` itself assigned producer 2 to
the fresh value `102`. -/
theorem claimC5_witness :
    valProducer (applyStep unitOracle formatFullLabel chainP2 (plainTransform "C")
      (some [101]) true true [101]).2.graph 101 = some 1 ∧
    valProducer (applyStep unitOracle formatFullLabel (addVal chainP1 102 pcollInfo)
      (plainTransform "B") (some [101]) true true [102]).2.graph 102 = some 2 := by
  constructor
  · exact claimC5.1 unitOracle formatFullLabel chainP2 (plainTransform "C")
      (some [101]) true true [101] 101 1 (by decide)
  · have h := claimC5.2 unitOracle formatFullLabel (addVal chainP1 102 pcollInfo)
      (plainTransform "B") [101] true true [102] 102 pcollInfo
      (by decide) (by decide) (by decide) (by decide) (by decide) (by decide)
    rw [show (addVal chainP1 102 pcollInfo).nextNode = 2 by decide] at h
    exact h

/-- The child node record after the whole result loop: outputs are exactly
the results, in order. -/
theorem node?_applyFolded_child {Subst : Type} (oracle : TypeOracle Subst)
    (fmt : String → String → String) (p : PState) (t : Transform)
    (inputs results : List VId)
    (hne : currentTransform p ≠ p.nextNode)
    (hfresh : p.graph.node? p.nextNode = none) :
    (applyFolded oracle fmt p t inputs results).graph.node? p.nextNode =
      some { mkChild (currentTransform p) t (applyLabel fmt p t) inputs with
             outputs := results } := by
  unfold applyFolded
  dsimp only
  rw [node?_foldl_processResultG, if_pos rfl,
    node?_applyPushed_child fmt p t inputs hne hfresh]
  rfl

/-- The parent node record is not touched by the result loop. -/
theorem node?_applyFolded_parent {Subst : Type} (oracle : TypeOracle Subst)
    (fmt : String → String → String) (p : PState) (t : Transform)
    (inputs results : List VId) (nd : NodeInfo)
    (hne : currentTransform p ≠ p.nextNode)
    (hpar : p.graph.node? (currentTransform p) = some nd) :
    (applyFolded oracle fmt p t inputs results).graph.node? (currentTransform p) =
      some { nd with parts := nd.parts ++ [p.nextNode] } := by
  unfold applyFolded
  dsimp only
  rw [node?_foldl_processResultG, if_neg hne,
    node?_applyPushed_parent fmt p t inputs nd hpar]

/-- Claim C7: with strictness `ALL_REQUIRED` configured and a transform
declaring no output types, `apply` fails with the `TypeCheckError` naming
the transform, and the failure happens after the output structure was
constructed: the final state has the child still pushed on the stack and
all results registered as the child's outputs. -/
theorem claimC7 {Subst : Type} (oracle : TypeOracle Subst)
    (fmt : String → String → String) (p : PState) (t : Transform)
    (inputs : List VId) (inOk outOk : Bool) (results : List VId)
    (hdup : applyLabel fmt p t ∉ p.applied_labels)
    (hin : ¬(typeCheckOn p ∧ ¬inOk)) (hout : ¬(typeCheckOn p ∧ ¬outOk))
    (hstrict : strictnessAllRequired p = true) (hnone : t.outputTypes = none)
    (hne : currentTransform p ≠ p.nextNode)
    (hfresh : p.graph.node? p.nextNode = none) :
    applyStep oracle fmt p t (some inputs) inOk outOk results =
      (.error (.missingOutputTypeHint (t.label ++ "(" ++ applyLabel fmt p t ++ ")")),
        applyFolded oracle fmt p t inputs results) ∧
    (applyFolded oracle fmt p t inputs results).transforms_stack =
      p.nextNode :: p.transforms_stack ∧
    outputsOfG (applyFolded oracle fmt p t inputs results).graph p.nextNode = results := by
  refine ⟨?_, rfl, ?_⟩
  · rw [applyStep_shape oracle fmt p t inputs inOk outOk results hdup,
      if_neg hin, if_neg hout, if_pos ⟨hstrict, hnone⟩]
  · unfold outputsOfG
    rw [node?_applyFolded_child oracle fmt p t inputs results hne hfresh]

/-- Witness for C7: a strict-mode pipeline state on which an `apply` with
no declared output types fails with the missing-output-type-hint error
while its child node and output registration persist. -/
theorem claimC7_witness :
    (applyStep unitOracle formatFullLabel
        (addVal (initPState (some { pipeline_type_check := false
                                    type_check_strictness := "ALL_REQUIRED" })) 301 pcollInfo)
        (plainTransform "S") (some []) true true [301]).1 =
      .error (.missingOutputTypeHint "S(S)") := by
  have h := claimC7 unitOracle formatFullLabel
    (addVal (initPState (some { pipeline_type_check := false
                                type_check_strictness := "ALL_REQUIRED" })) 301 pcollInfo)
    (plainTransform "S") [] true true [301]
    (by decide) (by decide) (by decide) (by decide) (by decide) (by decide) (by decide)
  rw [h.1]
  rfl

/-- A pipeline state with input type checking enabled, used by witnesses. -/
def tcP : PState :=
  addVal (initPState (some { pipeline_type_check := true
                             type_check_strictness := "DEFAULT" })) 401 pcollInfo

/-- Claim C9: when `apply` fails after registering the full label, nothing
is unwound: the label stays registered; for failures after the push
(type-check and missing-output-type errors) the pushed frame stays on the
stack and the child stays attached to the parent's parts; and a later
`apply` resolving to the same full label fails with the duplicate-label
error. -/
theorem claimC9 :
    (∀ {Subst : Type} (oracle : TypeOracle Subst) (fmt : String → String → String)
        (p : PState) (t : Transform) (inOk outOk : Bool) (results : List VId),
      applyLabel fmt p t ∉ p.applied_labels →
        applyStep oracle fmt p t none inOk outOk results =
          (.error .inputExtraction,
            { p with applied_labels := applyLabel fmt p t :: p.applied_labels })) ∧
    (∀ {Subst : Type} (oracle : TypeOracle Subst) (fmt : String → String → String)
        (p : PState) (t : Transform) (inputs : List VId) (inOk outOk : Bool)
        (results : List VId) (e : ApplyError) (p' : PState),
      applyLabel fmt p t ∉ p.applied_labels →
      applyStep oracle fmt p t (some inputs) inOk outOk results = (.error e, p') →
        applyLabel fmt p t ∈ p'.applied_labels ∧
        p'.transforms_stack = p.nextNode :: p.transforms_stack ∧
        (∀ nd, p.graph.node? (currentTransform p) = some nd →
          currentTransform p ≠ p.nextNode →
            p.nextNode ∈ partsOfG p'.graph (currentTransform p)) ∧
        (∀ (t₂ : Transform) (e₂ : Option (List VId)) (i₂ o₂ : Bool) (r₂ : List VId),
          applyLabel fmt p' t₂ = applyLabel fmt p t →
            applyStep oracle fmt p' t₂ e₂ i₂ o₂ r₂ =
              (.error (.duplicateLabel (applyLabel fmt p' t₂)), p'))) := by
  constructor
  · intro Subst oracle fmt p t inOk outOk results hdup
    exact applyStep_extract_fail oracle fmt p t inOk outOk results hdup
  · intro Subst oracle fmt p t inputs inOk outOk results e p' hdup happly
    rw [applyStep_shape oracle fmt p t inputs inOk outOk results hdup] at happly
    have main :
        ∀ hp' : p' = applyPushed fmt p t inputs ∨
          p' = applyFolded oracle fmt p t inputs results,
        applyLabel fmt p t ∈ p'.applied_labels ∧
        p'.transforms_stack = p.nextNode :: p.transforms_stack ∧
        (∀ nd, p.graph.node? (currentTransform p) = some nd →
          currentTransform p ≠ p.nextNode →
            p.nextNode ∈ partsOfG p'.graph (currentTransform p)) := by
      intro hp'
      cases hp' with
      | inl h =>
        subst h
        refine ⟨List.mem_cons_self _ _, rfl, ?_⟩
        intro nd hpar hne
        unfold partsOfG
        rw [node?_applyPushed_parent fmt p t inputs nd hpar]
        simp
      | inr h =>
        subst h
        refine ⟨List.mem_cons_self _ _, rfl, ?_⟩
        intro nd hpar hne
        unfold partsOfG
        rw [node?_applyFolded_parent oracle fmt p t inputs results nd hne hpar]
        simp
    have hcase : p' = applyPushed fmt p t inputs ∨
        p' = applyFolded oracle fmt p t inputs results := by
      split at happly
      · rw [Prod.mk.injEq] at happly
        exact Or.inl happly.2.symm
      · split at happly
        · rw [Prod.mk.injEq] at happly
          exact Or.inl happly.2.symm
        · split at happly
          · rw [Prod.mk.injEq] at happly
            exact Or.inr happly.2.symm
          · rw [Prod.mk.injEq] at happly
            cases happly.1
    obtain ⟨hmem, hstack, hparts⟩ := main hcase
    refine ⟨hmem, hstack, hparts, ?_⟩
    intro t₂ e₂ i₂ o₂ r₂ hsame
    exact applyStep_duplicate oracle fmt p' t₂ e₂ i₂ o₂ r₂ (by rw [hsame]; exact hmem)

/-- Witness for C9: an extraction failure on the chain pipeline keeps the
label registered, and an input-type-check failure on a type-checking
pipeline keeps the child pushed and attached while a relabelled re-apply
hits the duplicate error. -/
theorem claimC9_witness :
    (applyStep unitOracle formatFullLabel chainP2 (plainTransform "E") none true true [] =
      (.error .inputExtraction,
        { chainP2 with applied_labels := "E" :: chainP2.applied_labels })) ∧
    ("T" ∈ (applyStep unitOracle formatFullLabel tcP (plainTransform "T")
        (some []) false true []).2.applied_labels ∧
      (applyStep unitOracle formatFullLabel tcP (plainTransform "T")
        (some []) false true []).2.transforms_stack = [1, 0] ∧
      1 ∈ partsOfG (applyStep unitOracle formatFullLabel tcP (plainTransform "T")
        (some []) false true []).2.graph 0) := by
  constructor
  · have h := claimC9.1 unitOracle formatFullLabel chainP2 (plainTransform "E")
      true true [] (by decide)
    rw [show applyLabel formatFullLabel chainP2 (plainTransform "E") = "E" by decide] at h
    exact h
  · have h := claimC9.2 unitOracle formatFullLabel tcP (plainTransform "T")
      [] false true [] .typeCheckInputs
      (applyStep unitOracle formatFullLabel tcP (plainTransform "T") (some []) false true []).2
      (by decide) (by rfl)
    obtain ⟨hmem, hstack, hparts, _⟩ := h
    refine ⟨?_, ?_, ?_⟩
    · rw [show applyLabel formatFullLabel tcP (plainTransform "T") = "T" by decide] at hmem
      exact hmem
    · rw [hstack]; decide
    · have := hparts { parent := none, transformLabel := none, fullLabel := ""
                       inputs := [], sideInputs := [], outputs := [], parts := [] }
        (by decide) (by decide)
      simpa using this

/-- Claim C4: `is_composite` is true iff the node has a child part or none
of its recorded outputs has the node itself as producer; consequently an
`apply` whose results were all produced elsewhere (a pass-through with
zero child parts) yields a composite child, and an `apply` producing one
fresh output (whose producer becomes the node itself) yields a
non-composite child. -/
theorem claimC4 :
    (∀ (g : Graph) (n : NodeId) (nd : NodeInfo), g.node? n = some nd →
      (isCompositeG g n = true ↔
        (nd.parts ≠ [] ∨ ∀ o ∈ nd.outputs, valProducer g o ≠ some n))) ∧
    (∀ {Subst : Type} (oracle : TypeOracle Subst) (fmt : String → String → String)
        (p : PState) (t : Transform) (inputs : List VId) (inOk outOk : Bool)
        (results : List VId),
      applyLabel fmt p t ∉ p.applied_labels →
      ¬(typeCheckOn p ∧ ¬inOk) → ¬(typeCheckOn p ∧ ¬outOk) →
      currentTransform p ≠ p.nextNode → p.graph.node? p.nextNode = none →
      (∀ w ∈ results, ∃ q, valProducer p.graph w = some q ∧ q ≠ p.nextNode) →
        isCompositeG (applyStep oracle fmt p t (some inputs) inOk outOk results).2.graph
          p.nextNode = true) ∧
    (∀ {Subst : Type} (oracle : TypeOracle Subst) (fmt : String → String → String)
        (p : PState) (t : Transform) (inputs : List VId) (inOk outOk : Bool)
        (v : VId) (i : ValInfo),
      applyLabel fmt p t ∉ p.applied_labels →
      ¬(typeCheckOn p ∧ ¬inOk) → ¬(typeCheckOn p ∧ ¬outOk) →
      currentTransform p ≠ p.nextNode → p.graph.node? p.nextNode = none →
      p.graph.val? v = some i → i.producer = none →
        isCompositeG (applyStep oracle fmt p t (some inputs) inOk outOk [v]).2.graph
          p.nextNode = false) := by
  refine ⟨?_, ?_, ?_⟩
  · intro g n nd hnd
    unfold isCompositeG
    rw [hnd]
    unfold isCompositeN
    constructor
    · intro h
      rcases Bool.or_eq_true_iff.mp h with h1 | h1
      · left
        intro hp
        rw [hp] at h1
        cases h1
      · right
        intro o ho
        have := List.all_eq_true.mp h1 o ho
        exact bne_iff_ne.mp this
    · intro h
      rcases h with h1 | h1
      · apply Bool.or_eq_true_iff.mpr
        left
        cases hp : nd.parts with
        | nil => exact absurd hp h1
        | cons a l => rfl
      · apply Bool.or_eq_true_iff.mpr
        right
        apply List.all_eq_true.mpr
        intro o ho
        exact bne_iff_ne.mpr (h1 o ho)
  · intro Subst oracle fmt p t inputs inOk outOk results hdup hin hout hne hfresh hprod
    rw [applyStep_shape oracle fmt p t inputs inOk outOk results hdup,
      if_neg hin, if_neg hout]
    have hgoal :
        isCompositeG (applyFolded oracle fmt p t inputs results).graph p.nextNode = true := by
      unfold isCompositeG
      rw [node?_applyFolded_child oracle fmt p t inputs results hne hfresh]
      unfold isCompositeN
      apply Bool.or_eq_true_iff.mpr
      right
      apply List.all_eq_true.mpr
      intro o ho
      have ho' : o ∈ results := ho
      obtain ⟨q, hq, hqne⟩ := hprod o ho'
      have hpres :
          valProducer (applyFolded oracle fmt p t inputs results).graph o = some q := by
        unfold applyFolded
        dsimp only
        apply valProducer_foldl_processResultG
        rw [valProducer_applyPushed]
        exact hq
      rw [hpres]
      exact bne_iff_ne.mpr (fun hc => hqne (by injection hc))
    split
    · exact hgoal
    · exact hgoal
  · intro Subst oracle fmt p t inputs inOk outOk v i hdup hin hout hne hfresh hv hpnone
    rw [applyStep_shape oracle fmt p t inputs inOk outOk [v] hdup,
      if_neg hin, if_neg hout]
    have hassign :
        valProducer (applyFolded oracle fmt p t inputs [v]).graph v = some p.nextNode := by
      unfold applyFolded
      dsimp only
      apply valProducer_foldl_assign (i := i)
      · exact List.mem_singleton_self v
      · rw [val?_applyPushed]; exact hv
      · rw [valProducer_applyPushed]
        simp [valProducer, hv, hpnone]
    have hgoal :
        isCompositeG (applyFolded oracle fmt p t inputs [v]).graph p.nextNode = false := by
      unfold isCompositeG
      rw [node?_applyFolded_child oracle fmt p t inputs [v] hne hfresh]
      unfold isCompositeN
      apply Bool.or_eq_false_iff.mpr
      constructor
      · rfl
      · apply Bool.eq_false_iff.mpr
        intro hall
        have := List.all_eq_true.mp hall v (List.mem_singleton_self v)
        rw [hassign] at this
        exact absurd rfl (bne_iff_ne.mp this)
    split
    · exact hgoal
    · exact hgoal

/-- Witness for C4 on the concrete pipelines: the root of the chain
pipeline is composite (by the iff), a pass-through application of the
existing value `101` yields a composite child, and the primitive
application that built node 2 of the chain is non-composite. -/
theorem claimC4_witness :
    isCompositeG chainP2.graph 0 = true ∧
    isCompositeG (applyStep unitOracle formatFullLabel chainP2 (plainTransform "C")
      (some [101]) true true [101]).2.graph 3 = true ∧
    isCompositeG (applyStep unitOracle formatFullLabel (addVal chainP1 102 pcollInfo)
      (plainTransform "B") (some [101]) true true [102]).2.graph 2 = false := by
  refine ⟨?_, ?_, ?_⟩
  · exact (claimC4.1 chainP2.graph 0
      { parent := none, transformLabel := none, fullLabel := ""
        inputs := [], sideInputs := [], outputs := [], parts := [1, 2] }
      (by decide)).mpr (Or.inl (by decide))
  · have h := claimC4.2.1 unitOracle formatFullLabel chainP2 (plainTransform "C")
      [101] true true [101] (by decide) (by decide) (by decide) (by decide) (by decide)
      (by intro w hw
          have : w = 101 := List.mem_singleton.mp hw
          subst this
          exact ⟨1, by decide, by decide⟩)
    rw [show chainP2.nextNode = 3 by decide] at h
    exact h
  · have h := claimC4.2.2 unitOracle formatFullLabel (addVal chainP1 102 pcollInfo)
      (plainTransform "B") [101] true true 102 pcollInfo
      (by decide) (by decide) (by decide) (by decide) (by decide) (by decide) (by decide)
    rw [show (addVal chainP1 102 pcollInfo).nextNode = 2 by decide] at h
    exact h

/-! ## Traversal infrastructure -/

/-- `s'` extends `s`: the visited set only grew and the event trace only
gained a suffix. -/
def PrefixOf (s s' : VState) : Prop :=
  (∀ v ∈ s.visited, v ∈ s'.visited) ∧ ∃ l, s'.events = s.events ++ l

theorem PrefixOf.rfl (s : VState) : PrefixOf s s :=
  ⟨fun _ h => h, [], by simp⟩

theorem PrefixOf.trans {s1 s2 s3 : VState} (h1 : PrefixOf s1 s2) (h2 : PrefixOf s2 s3) :
    PrefixOf s1 s3 := by
  obtain ⟨hv1, l1, he1⟩ := h1
  obtain ⟨hv2, l2, he2⟩ := h2
  exact ⟨fun v hv => hv2 v (hv1 v hv), l1 ++ l2, by rw [he2, he1, List.append_assoc]⟩

theorem prefixOf_emit (s : VState) (e : Event) : PrefixOf s (emit s e) :=
  ⟨fun _ h => h, [e], rfl⟩

theorem prefixOf_foldl {α : Type} (f : VState → α → VState)
    (hf : ∀ s a, PrefixOf s (f s a)) (l : List α) (s : VState) :
    PrefixOf s (l.foldl f s) := by
  induction l generalizing s with
  | nil => exact PrefixOf.rfl s
  | cons a t ih => exact (hf s a).trans (ih (f s a))

theorem prefixOf_markOutputs (g : Graph) (n : NodeId) (outs : List VId) (s : VState) :
    PrefixOf s (markOutputs g n outs s) := by
  unfold markOutputs
  apply prefixOf_foldl
  intro s1 o
  apply prefixOf_foldl
  intro s2 v
  unfold markStep
  split
  · exact PrefixOf.rfl s2
  · exact ⟨fun w hw => List.mem_cons_of_mem _ hw, [.visitValueE v n], rfl⟩

theorem visitVals_prefixOf (visit : NodeId → VState → Option VState) (g : Graph)
    (hmono : ∀ q s s', visit q s = some s' → PrefixOf s s') :
    ∀ (vs : List VId) (s s' : VState), visitVals visit g vs s = some s' → PrefixOf s s' := by
  intro vs
  induction vs with
  | nil => intro s s' h; cases h; exact PrefixOf.rfl _
  | cons v t ih =>
    intro s s' h
    unfold visitVals at h
    split at h
    · exact ih s s' h
    · split at h
      · cases h
      · next p hp =>
        split at h
        · cases h
        · next s1 hvisit =>
          split at h
          · exact (hmono p s s1 hvisit).trans (ih s1 s' h)
          · cases h

theorem visitSides_prefixOf (visit : NodeId → VState → Option VState) (g : Graph)
    (hmono : ∀ q s s', visit q s = some s' → PrefixOf s s') :
    ∀ (svs : List SideInput) (s s' : VState),
      visitSides visit g svs s = some s' → PrefixOf s s' := by
  intro svs
  induction svs with
  | nil => intro s s' h; cases h; exact PrefixOf.rfl _
  | cons sv t ih =>
    intro s s' h
    match sv with
    | .nonSide => exact ih s s' h
    | .asSideInput v =>
      unfold visitSides at h
      split at h
      · exact ih s s' h
      · split at h
        · cases h
        · next p hp =>
          split at h
          · cases h
          · next s1 hvisit =>
            split at h
            · exact (hmono p s s1 hvisit).trans (ih s1 s' h)
            · cases h

theorem visitParts_prefixOf (visit : NodeId → VState → Option VState)
    (hmono : ∀ q s s', visit q s = some s' → PrefixOf s s') :
    ∀ (qs : List NodeId) (s s' : VState),
      visitParts visit qs s = some s' → PrefixOf s s' := by
  intro qs
  induction qs with
  | nil => intro s s' h; cases h; exact PrefixOf.rfl _
  | cons q t ih =>
    intro s s' h
    unfold visitParts at h
    split at h
    · cases h
    · next s1 hvisit =>
      exact (hmono q s s1 hvisit).trans (ih s1 s' h)

/-- The traversal only extends the state. -/
theorem visitNode_prefixOf (g : Graph) :
    ∀ (fuel : Nat) (n : NodeId) (s s' : VState),
      visitNode g fuel n s = some s' → PrefixOf s s' := by
  intro fuel
  induction fuel with
  | zero => intro n s s' h; cases h
  | succ fuel ih =>
    intro n s s' h
    unfold visitNode at h
    split at h
    · cases h
    · next nd hnd =>
      split at h
      · cases h
      · next s1 h1 =>
        split at h
        · cases h
        · next s2 h2 =>
          have m1 := visitVals_prefixOf (visitNode g fuel) g ih nd.inputs s s1 h1
          have m2 := visitSides_prefixOf (visitNode g fuel) g ih nd.sideInputs s1 s2 h2
          split at h
          · split at h
            · cases h
            · next s3 h3 =>
              cases h
              exact (((m1.trans m2).trans (prefixOf_emit s2 _)).trans
                (visitParts_prefixOf (visitNode g fuel) ih nd.parts _ s3 h3)).trans
                ((prefixOf_emit s3 _).trans (prefixOf_markOutputs g n nd.outputs _))
          · cases h
            exact ((m1.trans m2).trans (prefixOf_emit s2 _)).trans
              (prefixOf_markOutputs g n nd.outputs _)

/-- Destructuring of one successful `visitNode` step. -/
theorem visitNode_succ_elim {g : Graph} {fuel : Nat} {n : NodeId} {s s' : VState}
    (h : visitNode g (fuel + 1) n s = some s') :
    ∃ nd s1 s2, g.node? n = some nd ∧
      visitVals (visitNode g fuel) g nd.inputs s = some s1 ∧
      visitSides (visitNode g fuel) g nd.sideInputs s1 = some s2 ∧
      ((isCompositeN g n nd = true ∧ ∃ s3,
          visitParts (visitNode g fuel) nd.parts (emit s2 (.enterComposite n)) = some s3 ∧
          s' = markOutputs g n nd.outputs (emit s3 (.leaveComposite n))) ∨
        (isCompositeN g n nd = false ∧
          s' = markOutputs g n nd.outputs (emit s2 (.visitTransformE n)))) := by
  unfold visitNode at h
  split at h
  · cases h
  · next nd hnd =>
    split at h
    · cases h
    · next s1 h1 =>
      split at h
      · cases h
      · next s2 h2 =>
        refine ⟨nd, s1, s2, hnd, h1, h2, ?_⟩
        split at h
        · next hc =>
          split at h
          · cases h
          · next s3 h3 =>
            cases h
            exact Or.inl ⟨hc, s3, h3, rfl⟩
        · next hc =>
          cases h
          exact Or.inr ⟨Bool.eq_false_iff.mpr hc, rfl⟩

/-- `is_composite` by id agrees with the record-level computation. -/
theorem isCompositeG_eq {g : Graph} {n : NodeId} {nd : NodeInfo}
    (hnd : g.node? n = some nd) : isCompositeG g n = isCompositeN g n nd := by
  unfold isCompositeG
  rw [hnd]

theorem PrefixOf.mem_events {s s' : VState} (h : PrefixOf s s') {e : Event}
    (he : e ∈ s.events) : e ∈ s'.events := by
  obtain ⟨_, l, hl⟩ := h
  rw [hl]
  exact List.mem_append_left l he

theorem PrefixOf.mem_visited {s s' : VState} (h : PrefixOf s s') {v : VId}
    (hv : v ∈ s.visited) : v ∈ s'.visited :=
  h.1 v hv

/-- Any member of a successful parts loop was itself visited, ending in a
state below the loop's final state. -/
theorem visitParts_elem (visit : NodeId → VState → Option VState)
    (hmono : ∀ q s s', visit q s = some s' → PrefixOf s s') :
    ∀ (qs : List NodeId) (s s' : VState), visitParts visit qs s = some s' →
      ∀ m ∈ qs, ∃ sa sb, visit m sa = some sb ∧ PrefixOf sb s' := by
  intro qs
  induction qs with
  | nil => intro s s' h m hm; cases hm
  | cons q t ih =>
    intro s s' h m hm
    unfold visitParts at h
    split at h
    · cases h
    · next s1 hvisit =>
      cases hm with
      | head =>
        exact ⟨s, s1, hvisit, visitParts_prefixOf visit hmono t s1 s' h⟩
      | tail _ hmem => exact ih s1 s' h m hmem

/-- Reflexive-transitive reachability through the `parts` lists (the
composite subtree of a node). -/
inductive ReachParts (g : Graph) : NodeId → NodeId → Prop where
  | refl (n : NodeId) : ReachParts g n n
  | step {n m k : NodeId} : m ∈ partsOfG g n → ReachParts g m k → ReachParts g n k

/-- A successful visit of `n` fires the announcing callback of every node
in `n`'s composite subtree. -/
theorem visitNode_cb_desc (g : Graph) :
    ∀ (q n : NodeId), ReachParts g n q →
      ∀ (fuel : Nat) (s s' : VState), visitNode g fuel n s = some s' →
        callbackOf g q ∈ s'.events := by
  intro q n hr
  induction hr with
  | refl n =>
    intro fuel s s' h
    cases fuel with
    | zero => cases h
    | succ fuel =>
      obtain ⟨nd, s1, s2, hnd, h1, h2, hbr⟩ := visitNode_succ_elim h
      cases hbr with
      | inl hb =>
        obtain ⟨hc, s3, h3, hs'⟩ := hb
        have hcb : callbackOf g n = Event.enterComposite n := by
          unfold callbackOf
          rw [isCompositeG_eq hnd, hc]
          rfl
        rw [hcb, hs']
        have hin : Event.enterComposite n ∈ (emit s2 (Event.enterComposite n)).events := by
          unfold emit
          exact List.mem_append_right _ (List.mem_singleton_self _)
        exact ((((visitParts_prefixOf _ (visitNode_prefixOf g fuel) nd.parts _ s3 h3).trans
          (prefixOf_emit s3 _)).trans
            (prefixOf_markOutputs g n nd.outputs _)).mem_events) hin
      | inr hb =>
        obtain ⟨hc, hs'⟩ := hb
        have hcb : callbackOf g n = Event.visitTransformE n := by
          unfold callbackOf
          rw [isCompositeG_eq hnd, hc]
          rfl
        rw [hcb, hs']
        have hin : Event.visitTransformE n ∈ (emit s2 (Event.visitTransformE n)).events := by
          unfold emit
          exact List.mem_append_right _ (List.mem_singleton_self _)
        exact (prefixOf_markOutputs g n nd.outputs _).mem_events hin
  | step hm hr ih =>
    rename_i nn mm kk
    intro fuel s s' h
    cases fuel with
    | zero => cases h
    | succ fuel =>
      obtain ⟨nd, s1, s2, hnd, h1, h2, hbr⟩ := visitNode_succ_elim h
      have hparts : partsOfG g nn = nd.parts := by
        unfold partsOfG
        rw [hnd]
      have hm' : mm ∈ nd.parts := by rw [← hparts]; exact hm
      cases hbr with
      | inl hb =>
        obtain ⟨hc, s3, h3, hs'⟩ := hb
        obtain ⟨sa, sb, hvm, hpre⟩ :=
          visitParts_elem (visitNode g fuel) (visitNode_prefixOf g fuel)
            nd.parts _ s3 h3 _ hm'
        have hq := ih fuel sa sb hvm
        rw [hs']
        exact (((hpre.trans (prefixOf_emit s3 _)).trans
          (prefixOf_markOutputs g nn nd.outputs _)).mem_events) hq
      | inr hb =>
        obtain ⟨hc, _⟩ := hb
        exfalso
        unfold isCompositeN at hc
        rw [Bool.or_eq_false_iff] at hc
        have h0 := hc.1
        rw [Bool.not_eq_false'] at h0
        rw [List.isEmpty_iff] at h0
        rw [h0] at hm'
        cases hm'

/-! ## Traversal invariants -/

/-- Every visited value has a producer whose announcing callback has
already fired. -/
def InvProd (g : Graph) (s : VState) : Prop :=
  ∀ v ∈ s.visited, ∃ p, valProducer g v = some p ∧ callbackOf g p ∈ s.events

/-- Dependency ordering of a trace: wherever a node's announcing callback
appears, the producers of all its non-begin inputs have already been
announced earlier in the trace. -/
def OrderedEv (g : Graph) (evs : List Event) : Prop :=
  ∀ (n : NodeId) (l1 l2 : List Event), evs = l1 ++ callbackOf g n :: l2 →
    ∀ v ∈ inputsOfG g n, isPBegin g v = false →
      ∃ p, valProducer g v = some p ∧ callbackOf g p ∈ l1

/-- Whether an event is a `visit_value` callback for value `v`. -/
def isVVFor (v : VId) (e : Event) : Bool :=
  match e with
  | .visitValueE w _ => w = v
  | _ => false

/-- Number of `visit_value` callbacks for `v` in a trace. -/
def vvCount (evs : List Event) (v : VId) : Nat := (evs.filter (isVVFor v)).length

/-- Each value got its `visit_value` callback at most once, and only if it
is in the visited set. -/
def InvCount (s : VState) : Prop :=
  ∀ v, vvCount s.events v ≤ if v ∈ s.visited then 1 else 0

theorem vvCount_append (l1 l2 : List Event) (v : VId) :
    vvCount (l1 ++ l2) v = vvCount l1 v + vvCount l2 v := by
  simp [vvCount, List.filter_append]

theorem vvCount_singleton_vv (v : VId) (n : NodeId) :
    vvCount [Event.visitValueE v n] v = 1 := by
  simp [vvCount, List.filter, isVVFor]

theorem vvCount_singleton_other (v w : VId) (n : NodeId) (h : ¬w = v) :
    vvCount [Event.visitValueE w n] v = 0 := by
  simp [vvCount, List.filter, isVVFor, h]

theorem vvCount_singleton_noncv (v : VId) (e : Event)
    (h : ∀ w n, e ≠ Event.visitValueE w n) : vvCount [e] v = 0 := by
  cases e with
  | visitValueE w n => exact absurd rfl (h w n)
  | enterComposite n => simp [vvCount, List.filter, isVVFor]
  | leaveComposite n => simp [vvCount, List.filter, isVVFor]
  | visitTransformE n => simp [vvCount, List.filter, isVVFor]

theorem callbackOf_ne_vv (g : Graph) (m : NodeId) (v : VId) (pn : NodeId) :
    callbackOf g m ≠ Event.visitValueE v pn := by
  unfold callbackOf
  split <;> intro h <;> cases h

theorem callbackOf_ne_leave (g : Graph) (m k : NodeId) :
    callbackOf g m ≠ Event.leaveComposite k := by
  unfold callbackOf
  split <;> intro h <;> cases h

theorem callbackOf_inj {g : Graph} {m n : NodeId} (h : callbackOf g m = callbackOf g n) :
    m = n := by
  unfold callbackOf at h
  split at h <;> split at h <;> injection h

theorem append_singleton_eq_split {α : Type} (l l1 l2 : List α) (x e : α)
    (h : l ++ [e] = l1 ++ x :: l2) :
    (l1 = l ∧ x = e ∧ l2 = []) ∨ ∃ l2', l = l1 ++ x :: l2' ∧ l2 = l2' ++ [e] := by
  rcases List.eq_nil_or_concat l2 with h2 | ⟨l2', a, h2⟩
  · subst h2
    left
    have hlen : l.length = l1.length := by
      have := congrArg List.length h
      simp at this
      exact this
    obtain ⟨he1, he2⟩ := List.append_inj h hlen
    have hx : x = e := by simpa using he2.symm
    exact ⟨he1.symm, hx, rfl⟩
  · rw [List.concat_eq_append] at h2
    subst h2
    right
    have h' : l ++ [e] = (l1 ++ x :: l2') ++ [a] := by rw [h]; simp
    have hlen : l.length = (l1 ++ x :: l2').length := by
      have hl := congrArg List.length h'
      simp only [List.length_append, List.length_cons, List.length_singleton] at hl ⊢
      try omega
    obtain ⟨he1, he2⟩ := List.append_inj h' hlen
    have hea : e = a := by simpa using he2
    exact ⟨l2', he1, by rw [hea]⟩

theorem orderedEv_append_noncb (g : Graph) (evs : List Event) (e : Event)
    (h : OrderedEv g evs) (hne : ∀ m, e ≠ callbackOf g m) :
    OrderedEv g (evs ++ [e]) := by
  intro n l1 l2 hdec v hv hb
  rcases append_singleton_eq_split evs l1 l2 (callbackOf g n) e hdec with
    ⟨_, hx, _⟩ | ⟨l2', hevs, _⟩
  · exact absurd hx.symm (hne n)
  · exact h n l1 l2' hevs v hv hb

theorem orderedEv_append_noncbs (g : Graph) (evs Δ : List Event)
    (h : OrderedEv g evs) (hΔ : ∀ e ∈ Δ, ∀ m, e ≠ callbackOf g m) :
    OrderedEv g (evs ++ Δ) := by
  induction Δ generalizing evs with
  | nil => simpa using h
  | cons e t ih =>
    have : evs ++ e :: t = (evs ++ [e]) ++ t := by simp
    rw [this]
    exact ih (evs ++ [e])
      (orderedEv_append_noncb g evs e h (hΔ e (List.mem_cons_self e t)))
      (fun e' he' m => hΔ e' (List.mem_cons_of_mem e he') m)

theorem orderedEv_append_cb (g : Graph) (evs : List Event) (n : NodeId)
    (h : OrderedEv g evs)
    (hn : ∀ v ∈ inputsOfG g n, isPBegin g v = false →
      ∃ p, valProducer g v = some p ∧ callbackOf g p ∈ evs) :
    OrderedEv g (evs ++ [callbackOf g n]) := by
  intro m l1 l2 hdec v hv hb
  rcases append_singleton_eq_split evs l1 l2 (callbackOf g m) (callbackOf g n) hdec with
    ⟨hl1, hx, _⟩ | ⟨l2', hevs, _⟩
  · have hmn : m = n := callbackOf_inj hx
    subst hmn
    subst hl1
    exact hn v hv hb
  · exact h m l1 l2' hevs v hv hb

theorem invProd_empty (g : Graph) : InvProd g ⟨[], []⟩ := by
  intro v hv
  cases hv

theorem orderedEv_nil (g : Graph) : OrderedEv g [] := by
  intro n l1 l2 hdec
  have hl := congrArg List.length hdec
  simp only [List.length_nil, List.length_append, List.length_cons] at hl
  exact absurd hl (by omega)

theorem invCount_empty : InvCount ⟨[], []⟩ := by
  intro v
  simp [vvCount, List.filter]

/-- Bundle of preservation properties of a visit callee. -/
def GoodVisit (g : Graph) (visit : NodeId → VState → Option VState) : Prop :=
  ∀ q s s', visit q s = some s' →
    PrefixOf s s' ∧
    (InvProd g s → InvProd g s') ∧
    (InvProd g s → OrderedEv g s.events → OrderedEv g s'.events) ∧
    (InvCount s → InvCount s')

theorem visitVals_good (g : Graph) (visit : NodeId → VState → Option VState)
    (hgood : GoodVisit g visit) :
    ∀ (vs : List VId) (s s' : VState), visitVals visit g vs s = some s' →
      (InvProd g s → InvProd g s') ∧
      (InvProd g s → OrderedEv g s.events → OrderedEv g s'.events) ∧
      (InvCount s → InvCount s') ∧
      (∀ v ∈ vs, isPBegin g v = false → v ∈ s'.visited) := by
  intro vs
  induction vs with
  | nil =>
    intro s s' h
    cases h
    exact ⟨id, fun _ b => b, id, by intro v hv; cases hv⟩
  | cons v t ih =>
    intro s s' h
    unfold visitVals at h
    split at h
    · next hguard =>
      obtain ⟨hi, ho, hc, hpost⟩ := ih s s' h
      refine ⟨hi, ho, hc, ?_⟩
      intro w hw hb
      cases hw with
      | head =>
        have hv : v ∈ s.visited := by
          cases hguard with
          | inl h1 => exact h1
          | inr h1 => rw [hb] at h1; cases h1
        exact (visitVals_prefixOf visit g (fun q a b hq => (hgood q a b hq).1)
          t s s' h).mem_visited hv
      | tail _ hmem => exact hpost w hmem hb
    · split at h
      · cases h
      · next p hp =>
        split at h
        · cases h
        · next s1 hvisit =>
          split at h
          · next hvin =>
            obtain ⟨hgm, hgi, hgo, hgc⟩ := hgood p s s1 hvisit
            obtain ⟨hi, ho, hc, hpost⟩ := ih s1 s' h
            refine ⟨fun a => hi (hgi a), fun a b => ho (hgi a) (hgo a b),
              fun a => hc (hgc a), ?_⟩
            intro w hw hb
            cases hw with
            | head =>
              exact (visitVals_prefixOf visit g (fun q a b hq => (hgood q a b hq).1)
                t s1 s' h).mem_visited hvin
            | tail _ hmem => exact hpost w hmem hb
          · cases h

theorem visitSides_good (g : Graph) (visit : NodeId → VState → Option VState)
    (hgood : GoodVisit g visit) :
    ∀ (svs : List SideInput) (s s' : VState), visitSides visit g svs s = some s' →
      (InvProd g s → InvProd g s') ∧
      (InvProd g s → OrderedEv g s.events → OrderedEv g s'.events) ∧
      (InvCount s → InvCount s') ∧
      (∀ w : VId, SideInput.asSideInput w ∈ svs → w ∈ s'.visited) := by
  intro svs
  induction svs with
  | nil =>
    intro s s' h
    cases h
    exact ⟨id, fun _ b => b, id, by intro w hw; cases hw⟩
  | cons sv t ih =>
    intro s s' h
    match sv with
    | .nonSide =>
      obtain ⟨hi, ho, hc, hpost⟩ := ih s s' h
      refine ⟨hi, ho, hc, ?_⟩
      intro w hw
      cases hw with
      | tail _ hmem => exact hpost w hmem
    | .asSideInput v =>
      unfold visitSides at h
      split at h
      · next hguard =>
        obtain ⟨hi, ho, hc, hpost⟩ := ih s s' h
        refine ⟨hi, ho, hc, ?_⟩
        intro w hw
        cases hw with
        | head =>
          exact (visitSides_prefixOf visit g (fun q a b hq => (hgood q a b hq).1)
            t s s' h).mem_visited hguard
        | tail _ hmem => exact hpost w hmem
      · split at h
        · cases h
        · next p hp =>
          split at h
          · cases h
          · next s1 hvisit =>
            split at h
            · next hvin =>
              obtain ⟨hgm, hgi, hgo, hgc⟩ := hgood p s s1 hvisit
              obtain ⟨hi, ho, hc, hpost⟩ := ih s1 s' h
              refine ⟨fun a => hi (hgi a), fun a b => ho (hgi a) (hgo a b),
                fun a => hc (hgc a), ?_⟩
              intro w hw
              cases hw with
              | head =>
                exact (visitSides_prefixOf visit g (fun q a b hq => (hgood q a b hq).1)
                  t s1 s' h).mem_visited hvin
              | tail _ hmem => exact hpost w hmem
            · cases h

theorem visitParts_good (g : Graph) (visit : NodeId → VState → Option VState)
    (hgood : GoodVisit g visit) :
    ∀ (qs : List NodeId) (s s' : VState), visitParts visit qs s = some s' →
      (InvProd g s → InvProd g s') ∧
      (InvProd g s → OrderedEv g s.events → OrderedEv g s'.events) ∧
      (InvCount s → InvCount s') := by
  intro qs
  induction qs with
  | nil =>
    intro s s' h
    cases h
    exact ⟨id, fun _ b => b, id⟩
  | cons q t ih =>
    intro s s' h
    unfold visitParts at h
    split at h
    · cases h
    · next s1 hvisit =>
      obtain ⟨hgm, hgi, hgo, hgc⟩ := hgood q s s1 hvisit
      obtain ⟨hi, ho, hc⟩ := ih s1 s' h
      exact ⟨fun a => hi (hgi a), fun a b => ho (hgi a) (hgo a b), fun a => hc (hgc a)⟩

theorem prefixOf_foldl_markStep (n : NodeId) (vs : List VId) (s : VState) :
    PrefixOf s (vs.foldl (markStep n) s) := by
  apply prefixOf_foldl
  intro s2 w
  unfold markStep
  split
  · exact PrefixOf.rfl _
  · exact ⟨fun _ h => List.mem_cons_of_mem _ h, [.visitValueE w n], rfl⟩

theorem foldl_markStep_shape (n : NodeId) (vs : List VId) (s : VState) :
    ∃ Δ, (vs.foldl (markStep n) s).events = s.events ++ Δ ∧
      ∀ e ∈ Δ, ∃ v, e = Event.visitValueE v n := by
  induction vs generalizing s with
  | nil => exact ⟨[], by simp, by intro e he; cases he⟩
  | cons v t ih =>
    rw [List.foldl_cons]
    by_cases hg : v ∈ s.visited
    · have hst : markStep n s v = s := by unfold markStep; rw [if_pos hg]
      rw [hst]
      exact ih s
    · have hst : markStep n s v =
        { visited := v :: s.visited, events := s.events ++ [Event.visitValueE v n] } := by
        unfold markStep; rw [if_neg hg]
      rw [hst]
      obtain ⟨Δ, hΔ, hall⟩ := ih _
      refine ⟨Event.visitValueE v n :: Δ, ?_, ?_⟩
      · rw [hΔ]; simp
      · intro e he
        cases he with
        | head => exact ⟨v, rfl⟩
        | tail _ hm => exact hall e hm

theorem markOutputs_shape (g : Graph) (n : NodeId) (outs : List VId) (s : VState) :
    ∃ Δ, (markOutputs g n outs s).events = s.events ++ Δ ∧
      ∀ e ∈ Δ, ∃ v, e = Event.visitValueE v n := by
  unfold markOutputs
  induction outs generalizing s with
  | nil => exact ⟨[], by simp, by intro e he; cases he⟩
  | cons o t ih =>
    rw [List.foldl_cons]
    obtain ⟨Δ1, h1, hall1⟩ := foldl_markStep_shape n (flattenOutput g o) s
    obtain ⟨Δ2, h2, hall2⟩ := ih ((flattenOutput g o).foldl (markStep n) s)
    refine ⟨Δ1 ++ Δ2, ?_, ?_⟩
    · rw [h2, h1]; simp
    · intro e he
      rcases List.mem_append.mp he with hh | hh
      · exact hall1 e hh
      · exact hall2 e hh

theorem markOutputs_ord (g : Graph) (n : NodeId) (outs : List VId) (s : VState)
    (ho : OrderedEv g s.events) : OrderedEv g (markOutputs g n outs s).events := by
  obtain ⟨Δ, hΔ, hall⟩ := markOutputs_shape g n outs s
  rw [hΔ]
  apply orderedEv_append_noncbs g _ _ ho
  intro e he m
  obtain ⟨v, rfl⟩ := hall e he
  exact (callbackOf_ne_vv g m v n).symm

theorem foldl_markStep_inv (g : Graph) (n : NodeId) (vs : List VId) (s : VState)
    (hvals : ∀ v ∈ vs, ∃ p, valProducer g v = some p ∧ callbackOf g p ∈ s.events)
    (hinv : InvProd g s) : InvProd g (vs.foldl (markStep n) s) := by
  induction vs generalizing s with
  | nil => exact hinv
  | cons v t ih =>
    rw [List.foldl_cons]
    by_cases hg : v ∈ s.visited
    · have hst : markStep n s v = s := by unfold markStep; rw [if_pos hg]
      rw [hst]
      exact ih s (fun w hw => hvals w (List.mem_cons_of_mem _ hw)) hinv
    · have hst : markStep n s v =
        { visited := v :: s.visited, events := s.events ++ [Event.visitValueE v n] } := by
        unfold markStep; rw [if_neg hg]
      rw [hst]
      apply ih
      · intro w hw
        obtain ⟨p, hp, hcb⟩ := hvals w (List.mem_cons_of_mem _ hw)
        exact ⟨p, hp, List.mem_append_left _ hcb⟩
      · intro w hw
        cases hw with
        | head =>
          obtain ⟨p, hp, hcb⟩ := hvals v (List.mem_cons_self _ _)
          exact ⟨p, hp, List.mem_append_left _ hcb⟩
        | tail _ hmem =>
          obtain ⟨p, hp, hcb⟩ := hinv w hmem
          exact ⟨p, hp, List.mem_append_left _ hcb⟩

theorem markOutputs_inv (g : Graph) (n : NodeId) (outs : List VId) (s : VState)
    (houts : ∀ o ∈ outs, ∀ v ∈ flattenOutput g o,
      ∃ p, valProducer g v = some p ∧ callbackOf g p ∈ s.events)
    (hinv : InvProd g s) : InvProd g (markOutputs g n outs s) := by
  unfold markOutputs
  induction outs generalizing s with
  | nil => exact hinv
  | cons o t ih =>
    rw [List.foldl_cons]
    apply ih
    · intro o' ho' v hv
      obtain ⟨p, hp, hcb⟩ := houts o' (List.mem_cons_of_mem _ ho') v hv
      exact ⟨p, hp, (prefixOf_foldl_markStep n (flattenOutput g o) s).mem_events hcb⟩
    · exact foldl_markStep_inv g n _ s (houts o (List.mem_cons_self _ _)) hinv

theorem foldl_markStep_count (n : NodeId) (vs : List VId) (s : VState)
    (hc : InvCount s) : InvCount (vs.foldl (markStep n) s) := by
  induction vs generalizing s with
  | nil => exact hc
  | cons v t ih =>
    rw [List.foldl_cons]
    by_cases hg : v ∈ s.visited
    · have hst : markStep n s v = s := by unfold markStep; rw [if_pos hg]
      rw [hst]
      exact ih s hc
    · have hst : markStep n s v =
        { visited := v :: s.visited, events := s.events ++ [Event.visitValueE v n] } := by
        unfold markStep; rw [if_neg hg]
      rw [hst]
      apply ih
      intro w
      show vvCount (s.events ++ [Event.visitValueE v n]) w ≤
        if w ∈ v :: s.visited then 1 else 0
      rw [vvCount_append]
      by_cases hwv : w = v
      · subst hwv
        have h0 : vvCount s.events w ≤ 0 := by
          have hb := hc w
          rw [if_neg hg] at hb
          exact hb
        rw [vvCount_singleton_vv w n, if_pos (List.mem_cons_self _ _)]
        omega
      · rw [vvCount_singleton_other w v n (fun he => hwv he.symm), Nat.add_zero]
        have hb := hc w
        by_cases hwvis : w ∈ s.visited
        · rw [if_pos (List.mem_cons_of_mem _ hwvis)]
          rw [if_pos hwvis] at hb
          exact hb
        · have hnm : w ∉ v :: s.visited := by
            intro hmem
            cases hmem with
            | head => exact hwv rfl
            | tail _ hmm => exact hwvis hmm
          rw [if_neg hnm]
          rw [if_neg hwvis] at hb
          exact hb

theorem markOutputs_count (g : Graph) (n : NodeId) (outs : List VId) (s : VState)
    (hc : InvCount s) : InvCount (markOutputs g n outs s) := by
  unfold markOutputs
  induction outs generalizing s with
  | nil => exact hc
  | cons o t ih =>
    rw [List.foldl_cons]
    exact ih _ (foldl_markStep_count n (flattenOutput g o) s hc)

theorem invProd_emit (g : Graph) (s : VState) (e : Event) (h : InvProd g s) :
    InvProd g (emit s e) := by
  intro v hv
  obtain ⟨p, hp, hcb⟩ := h v hv
  exact ⟨p, hp, List.mem_append_left _ hcb⟩

theorem invCount_emit_noncv (s : VState) (e : Event)
    (he : ∀ w n, e ≠ Event.visitValueE w n) (h : InvCount s) : InvCount (emit s e) := by
  intro v
  show vvCount (s.events ++ [e]) v ≤ if v ∈ s.visited then 1 else 0
  rw [vvCount_append, vvCount_singleton_noncv v e he, Nat.add_zero]
  exact h v

/-- Structural invariant maintained by `apply`: every (flattened) recorded
output value of a node is produced by a node inside that node's composite
subtree — the producer is either the node itself or a node created by a
nested `apply` below it. -/
def WFout (g : Graph) : Prop :=
  ∀ n : NodeId, ∀ o ∈ outputsOfG g n, ∀ v ∈ flattenOutput g o,
    ∃ p, valProducer g v = some p ∧ ReachParts g n p

/-- The traversal preserves the producer/callback invariant, dependency
ordering of the trace, and the at-most-once visit-value counting. -/
theorem visitNode_good (g : Graph) (hWF : WFout g) :
    ∀ fuel : Nat, GoodVisit g (visitNode g fuel) := by
  intro fuel
  induction fuel with
  | zero => intro q s s' h; cases h
  | succ fuel ih =>
    intro n s s' h
    refine ⟨visitNode_prefixOf g (fuel + 1) n s s' h, ?_, ?_, ?_⟩ <;>
      · obtain ⟨nd, s1, s2, hnd, h1, h2, hbr⟩ := visitNode_succ_elim h
        obtain ⟨hi1, ho1, hc1, hpost1⟩ := visitVals_good g _ ih nd.inputs s s1 h1
        obtain ⟨hi2, ho2, hc2, hpost2⟩ := visitSides_good g _ ih nd.sideInputs s1 s2 h2
        have hmono12 : PrefixOf s1 s2 :=
          visitSides_prefixOf _ g (fun q a b hq => (ih q a b hq).1) nd.sideInputs s1 s2 h2
        have hinputs : InvProd g s2 → ∀ v ∈ inputsOfG g n, isPBegin g v = false →
            ∃ p, valProducer g v = some p ∧ callbackOf g p ∈ s2.events := by
          intro hinv2 v hv hb
          have hv' : v ∈ nd.inputs := by
            unfold inputsOfG at hv
            rw [hnd] at hv
            exact hv
          exact hinv2 v (hmono12.mem_visited (hpost1 v hv' hb))
        cases hbr with
        | inl hbc =>
          obtain ⟨hc, s3, h3, hs'⟩ := hbc
          have hcb : callbackOf g n = Event.enterComposite n := by
            unfold callbackOf
            rw [isCompositeG_eq hnd, hc]
            rfl
          obtain ⟨pi3, po3, pc3⟩ := visitParts_good g _ ih nd.parts _ s3 h3
          have hdesc : ∀ o ∈ nd.outputs, ∀ v ∈ flattenOutput g o,
              ∃ p, valProducer g v = some p ∧
                callbackOf g p ∈ (emit s3 (Event.leaveComposite n)).events := by
            intro o ho v hv
            have ho' : o ∈ outputsOfG g n := by
              unfold outputsOfG
              rw [hnd]
              exact ho
            obtain ⟨p, hp, hreach⟩ := hWF n o ho' v hv
            refine ⟨p, hp, List.mem_append_left _ ?_⟩
            cases hreach with
            | refl =>
              rw [hcb]
              refine (visitParts_prefixOf _ (fun q a b hq => (ih q a b hq).1)
                nd.parts _ s3 h3).mem_events ?_
              exact List.mem_append_right _ (List.mem_singleton_self _)
            | step hm hr =>
              rename_i mm
              have hm' : mm ∈ nd.parts := by
                have hpeq : partsOfG g n = nd.parts := by
                  unfold partsOfG
                  rw [hnd]
                rw [← hpeq]
                exact hm
              obtain ⟨sa, sb, hvm, hpre⟩ :=
                visitParts_elem _ (fun q a b hq => (ih q a b hq).1) nd.parts _ s3 h3 _ hm'
              exact hpre.mem_events (visitNode_cb_desc g p mm hr fuel sa sb hvm)
          first
          | -- InvProd preservation
            (intro hinv
             rw [hs']
             exact markOutputs_inv g n nd.outputs _ hdesc
               (invProd_emit g s3 _ (pi3 (invProd_emit g s2 _ (hi2 (hi1 hinv))))))
          | -- Ordered preservation
            (intro hinv hord
             rw [hs']
             apply markOutputs_ord
             have hOs3 : OrderedEv g s3.events := by
               apply po3
               · exact invProd_emit g s2 _ (hi2 (hi1 hinv))
               · show OrderedEv g (s2.events ++ [Event.enterComposite n])
                 rw [← hcb]
                 exact orderedEv_append_cb g s2.events n
                   (ho2 (hi1 hinv) (ho1 hinv hord)) (hinputs (hi2 (hi1 hinv)))
             show OrderedEv g (s3.events ++ [Event.leaveComposite n])
             exact orderedEv_append_noncb g s3.events _ hOs3
               (fun m => (callbackOf_ne_leave g m n).symm))
          | -- Count preservation
            (intro hcnt
             rw [hs']
             apply markOutputs_count
             apply invCount_emit_noncv _ _ (by intro w k he; cases he)
             exact pc3 (invCount_emit_noncv _ _ (by intro w k he; cases he)
               (hc2 (hc1 hcnt))))
        | inr hbc =>
          obtain ⟨hc, hs'⟩ := hbc
          have hcb : callbackOf g n = Event.visitTransformE n := by
            unfold callbackOf
            rw [isCompositeG_eq hnd, hc]
            rfl
          have hdesc : ∀ o ∈ nd.outputs, ∀ v ∈ flattenOutput g o,
              ∃ p, valProducer g v = some p ∧
                callbackOf g p ∈ (emit s2 (Event.visitTransformE n)).events := by
            intro o ho v hv
            have ho' : o ∈ outputsOfG g n := by
              unfold outputsOfG
              rw [hnd]
              exact ho
            obtain ⟨p, hp, hreach⟩ := hWF n o ho' v hv
            refine ⟨p, hp, ?_⟩
            cases hreach with
            | refl =>
              rw [hcb]
              exact List.mem_append_right _ (List.mem_singleton_self _)
            | step hm hr =>
              exfalso
              have hpeq : partsOfG g n = nd.parts := by
                unfold partsOfG
                rw [hnd]
              unfold isCompositeN at hc
              rw [Bool.or_eq_false_iff] at hc
              have h0 := hc.1
              rw [Bool.not_eq_false'] at h0
              rw [List.isEmpty_iff] at h0
              rw [hpeq, h0] at hm
              cases hm
          first
          | (intro hinv
             rw [hs']
             exact markOutputs_inv g n nd.outputs _ hdesc
               (invProd_emit g s2 _ (hi2 (hi1 hinv))))
          | (intro hinv hord
             rw [hs']
             apply markOutputs_ord
             show OrderedEv g (s2.events ++ [Event.visitTransformE n])
             rw [← hcb]
             exact orderedEv_append_cb g s2.events n
               (ho2 (hi1 hinv) (ho1 hinv hord)) (hinputs (hi2 (hi1 hinv))))
          | (intro hcnt
             rw [hs']
             apply markOutputs_count
             exact invCount_emit_noncv _ _ (by intro w k he; cases he)
               (hc2 (hc1 hcnt)))

/-- Transitive producer relation: `p` produced one of `n`'s (non-begin)
inputs, directly or through intermediate producers. -/
inductive TransProd (g : Graph) : NodeId → NodeId → Prop where
  | direct {n : NodeId} {v : VId} {p : NodeId} :
      v ∈ inputsOfG g n → isPBegin g v = false → valProducer g v = some p →
      TransProd g p n
  | trans {n m p : NodeId} : TransProd g m n → TransProd g p m → TransProd g p n

/-- In a dependency-ordered trace, every transitive producer of a node's
inputs is announced strictly before the node. -/
theorem orderedEv_transProd (g : Graph) (evs : List Event) (h : OrderedEv g evs) :
    ∀ (p n : NodeId), TransProd g p n →
      ∀ (l1 l2 : List Event), evs = l1 ++ callbackOf g n :: l2 →
        callbackOf g p ∈ l1 := by
  intro p n htp
  induction htp with
  | direct hv hb hp =>
    intro l1 l2 hdec
    obtain ⟨p', hp', hcb⟩ := h _ l1 l2 hdec _ hv hb
    rw [hp] at hp'
    injection hp' with hp'
    rw [hp']
    exact hcb
  | trans h1 h2 ih1 ih2 =>
    intro l1 l2 hdec
    have hm := ih1 l1 l2 hdec
    obtain ⟨a, b, hab⟩ := List.append_of_mem hm
    rename_i nn mm pp
    have hdec2 : evs = a ++ callbackOf g mm :: (b ++ callbackOf g nn :: l2) := by
      rw [hdec, hab]
      simp
    have hpa := ih2 a (b ++ callbackOf g nn :: l2) hdec2
    rw [hab]
    exact List.mem_append_left _ hpa

/-- Fuel-bounded decision procedure for `ReachParts`. -/
def reachPartsB (g : Graph) : Nat → NodeId → NodeId → Bool
  | 0, n, k => n = k
  | fuel + 1, n, k => n = k || (partsOfG g n).any (fun m => reachPartsB g fuel m k)

theorem reachPartsB_sound (g : Graph) :
    ∀ (fuel : Nat) (n k : NodeId), reachPartsB g fuel n k = true → ReachParts g n k := by
  intro fuel
  induction fuel with
  | zero =>
    intro n k h
    have : n = k := by simpa [reachPartsB] using h
    subst this
    exact .refl n
  | succ fuel ih =>
    intro n k h
    unfold reachPartsB at h
    rcases Bool.or_eq_true_iff.mp h with h1 | h1
    · have : n = k := by simpa using h1
      subst this
      exact .refl n
    · obtain ⟨m, hm, hr⟩ := List.any_eq_true.mp h1
      exact .step hm (ih m k hr)

theorem alookup_mem {β : Type} (l : List (Nat × β)) (k : Nat) (b : β)
    (h : alookup l k = some b) : (k, b) ∈ l := by
  induction l with
  | nil => cases h
  | cons a t ih =>
    unfold alookup at h
    split at h
    · next heq =>
      injection h with h
      subst heq
      rw [← h]
      exact List.mem_cons_self _ _
    · exact List.mem_cons_of_mem _ (ih h)

/-- Decidable check implying `WFout`. -/
def WFoutB (g : Graph) (fuel : Nat) : Bool :=
  g.nodes.all (fun x =>
    x.2.outputs.all (fun o =>
      (flattenOutput g o).all (fun v =>
        match valProducer g v with
        | some p => reachPartsB g fuel x.1 p
        | none => false)))

theorem WFoutB_sound (g : Graph) (fuel : Nat) (h : WFoutB g fuel = true) : WFout g := by
  intro n o ho v hv
  unfold outputsOfG at ho
  cases hnd : g.node? n with
  | none => rw [hnd] at ho; cases ho
  | some nd =>
    rw [hnd] at ho
    have hmem : (n, nd) ∈ g.nodes := alookup_mem _ _ _ hnd
    have h1 := List.all_eq_true.mp h _ hmem
    simp only at h1
    have h2 := List.all_eq_true.mp h1 o ho
    have h3 := List.all_eq_true.mp h2 v hv
    cases hp : valProducer g v with
    | none => rw [hp] at h3; cases h3
    | some p =>
      rw [hp] at h3
      exact ⟨p, rfl, reachPartsB_sound g fuel n p h3⟩

/-- A completed `Pipeline.visit` is a successful `visitNode` run from a
fresh empty visited set. -/
theorem pipelineVisit_done_elim {p : PState} {fuel : Nat} {node : Option VId}
    {s' : VState} (h : pipelineVisit p fuel node = .done s') :
    ∃ start, visitNode p.graph fuel start ⟨[], []⟩ = some s' := by
  cases node with
  | none =>
    have heq : pipelineVisit p fuel none =
        (match visitNode p.graph fuel (rootTransform p) ⟨[], []⟩ with
         | none => VisitOutcome.visitFailed
         | some s => VisitOutcome.done s) := rfl
    rw [heq] at h
    split at h
    · cases h
    · next s hs =>
      injection h with h
      subst h
      exact ⟨rootTransform p, hs⟩
  | some v =>
    have heq : pipelineVisit p fuel (some v) =
        (if v ∈ p.pvalRegistry then
          match valProducer p.graph v with
          | none => VisitOutcome.noProducer
          | some start =>
            match visitNode p.graph fuel start ⟨[], []⟩ with
            | none => VisitOutcome.visitFailed
            | some s => VisitOutcome.done s
        else VisitOutcome.notInPipeline) := rfl
    rw [heq] at h
    split at h
    · split at h
      · cases h
      · next start hstart =>
        split at h
        · cases h
        · next s hs =>
          injection h with h
          subst h
          exact ⟨start, hs⟩
    · cases h

/-- The expected trace of the chain pipeline's partial traversal from V2. -/
def chainTrace : VState :=
  ⟨[102, 101],
   [.visitTransformE 1, .visitValueE 101 1, .visitTransformE 2, .visitValueE 102 2]⟩

/-- Claim C2: in every completed pipeline traversal (full or partial, on a
graph satisfying the `apply` output invariant), no node's callback fires
before the callbacks of all transitive producers of its inputs; and in
the concrete two-transform chain root → A → V1 → B → V2, `Pipeline.visit`
from V2 invokes exactly, in order, visit_transform(A), visit_value(V1,A),
visit_transform(B), visit_value(V2,B), with no composite callbacks. -/
theorem claimC2 :
    (∀ (p : PState), WFout p.graph → ∀ (fuel : Nat) (node : Option VId) (s' : VState),
      pipelineVisit p fuel node = .done s' →
      ∀ (l1 l2 : List Event) (n q : NodeId),
        s'.events = l1 ++ callbackOf p.graph n :: l2 → TransProd p.graph q n →
          callbackOf p.graph q ∈ l1) ∧
    pipelineVisit chainP2 10 (some 102) = .done chainTrace := by
  constructor
  · intro p hWF fuel node s' h l1 l2 n q hdec htp
    obtain ⟨start, hstart⟩ := pipelineVisit_done_elim h
    have hord : OrderedEv p.graph s'.events :=
      (visitNode_good p.graph hWF fuel start ⟨[], []⟩ s' hstart).2.2.1
        (invProd_empty p.graph) (orderedEv_nil p.graph)
    exact orderedEv_transProd p.graph s'.events hord q n htp l1 l2 hdec
  · rfl

/-- Witness for C2 on the chain pipeline: node 1 (TransformA) is a
transitive producer of node 2 (TransformB)'s inputs, and its callback
indeed precedes node 2's callback in the recorded trace. -/
theorem claimC2_witness :
    callbackOf chainP2.graph 1 ∈ [Event.visitTransformE 1, Event.visitValueE 101 1] := by
  apply claimC2.1 chainP2 (WFoutB_sound chainP2.graph 5 (by decide)) 10 (some 102)
    chainTrace rfl [Event.visitTransformE 1, Event.visitValueE 101 1]
    [Event.visitValueE 102 2] 2 1
  · decide
  · exact TransProd.direct (v := 101) (by decide) (by decide) (by decide)

/-- The expected trace of the diamond pipeline's full traversal. -/
def diamondTrace : VState :=
  ⟨[203, 202, 201],
   [.enterComposite 0, .visitTransformE 1, .visitValueE 201 1,
    .visitTransformE 2, .visitValueE 202 2, .visitTransformE 3, .visitValueE 203 3,
    .leaveComposite 0]⟩

/-- Claim C3, amended: in every completed traversal each value receives
its `visit_value` callback at most once (the shared visited set guards
the output-marking loop); and in the concrete diamond (two downstream
transforms sharing producer P), the full traversal's trace is exactly the
expected one, in which P's `visit_transform` fires exactly once.  The
original claim's node half — each `AppliedPTransform` node visited at
most once — is false: the parts loop of `visit` is unguarded, so a node
reachable both as an input's producer and as a later-visited composite's
part fires `visit_transform` twice (see the counterexample below). -/
theorem claimC3 :
    (∀ (p : PState), WFout p.graph → ∀ (fuel : Nat) (node : Option VId) (s' : VState),
      pipelineVisit p fuel node = .done s' → ∀ v, vvCount s'.events v ≤ 1) ∧
    pipelineVisit diamondP 10 none = .done diamondTrace ∧
    diamondTrace.events.count (Event.visitTransformE 1) = 1 := by
  refine ⟨?_, rfl, by decide⟩
  intro p hWF fuel node s' h v
  obtain ⟨start, hstart⟩ := pipelineVisit_done_elim h
  have hcnt : InvCount s' :=
    (visitNode_good p.graph hWF fuel start ⟨[], []⟩ s' hstart).2.2.2 invCount_empty
  have hb := hcnt v
  split at hb
  · exact hb
  · exact Nat.le_trans hb (Nat.zero_le 1)

/-- Witness for C3: the shared value 201 of the diamond received exactly
at most one `visit_value` callback in the recorded diamond trace. -/
theorem claimC3_witness : vvCount diamondTrace.events 201 ≤ 1 :=
  claimC3.1 diamondP (WFoutB_sound diamondP.graph 5 (by decide)) 10 none
    diamondTrace rfl 201

/-- A pipeline state exhibiting the unguarded parts loop of
`AppliedPTransform.visit`: composite node 1 has primitive part node 2;
node 2 produces value 301, node 1 itself produces value 302, and
primitive node 3 consumes both (producing 303).  A traversal from 303
reaches node 2 first as 301's producer (inputs loop), then again as a
part of composite node 1, whose parts loop carries no visited guard. -/
def partsCexP : PState :=
  { graph :=
      { vals :=
          [(301, { producer := some 2, elementType := none, kind := .pcoll }),
           (302, { producer := some 1, elementType := none, kind := .pcoll }),
           (303, { producer := some 3, elementType := none, kind := .pcoll })]
        nodes :=
          [(1, { parent := none, transformLabel := some "C", fullLabel := "C"
                 inputs := [], sideInputs := [], outputs := [302], parts := [2] }),
           (2, { parent := some 1, transformLabel := some "N", fullLabel := "C/N"
                 inputs := [], sideInputs := [], outputs := [301], parts := [] }),
           (3, { parent := none, transformLabel := some "S", fullLabel := "S"
                 inputs := [301, 302], sideInputs := [], outputs := [303], parts := [] })] }
    transforms_stack := [0]
    applied_labels := ["C", "C/N", "S"]
    pvalRegistry := [301, 302, 303]
    options := none
    nextNode := 4 }

/-- The trace the counterexample traversal records: node 2's
`visit_transform` fires once as 301's producer and once more inside the
parts loop of composite node 1, while every value is marked (and receives
`visit_value`) exactly once. -/
def partsCexTrace : VState :=
  ⟨[303, 302, 301],
   [.visitTransformE 2, .visitValueE 301 2, .enterComposite 1,
    .visitTransformE 2, .leaveComposite 1, .visitValueE 302 1,
    .visitTransformE 3, .visitValueE 303 3]⟩

/-- Counterexample to the original C3: on a graph satisfying the `apply`
output invariant `WFout`, one completed `Pipeline.visit` invocation fires
node 2's `visit_transform` callback twice — the node is reached once as
the producer of the unvisited input 301 and once more through composite
node 1's unguarded parts loop — even though every value is still visited
at most once. -/
theorem claimC3_counterexample :
    WFout partsCexP.graph ∧
    pipelineVisit partsCexP 10 (some 303) = .done partsCexTrace ∧
    partsCexTrace.events.count (Event.visitTransformE 2) = 2 :=
  ⟨WFoutB_sound partsCexP.graph 3 (by decide), rfl, by decide⟩

/-- Claim C8: during the visit of a node, each `AsSideInput`-wrapped side
input whose underlying value was not yet visited is unwrapped and its
producer recursively traversed before the node's own callback: there is a
traversal point (strictly before the node's announcing callback in the
final trace) at which the underlying value is marked visited and its
producer's callback has already fired. -/
theorem claimC8 (g : Graph) (hWF : WFout g) (fuel : Nat) (n : NodeId)
    (s s' : VState) (nd : NodeInfo) (w : VId)
    (h : visitNode g (fuel + 1) n s = some s')
    (hnd : g.node? n = some nd)
    (hmem : SideInput.asSideInput w ∈ nd.sideInputs)
    (hinv : InvProd g s)
    (hnotyet : w ∉ s.visited) :
    ∃ s2 : VState,
      w ∈ s2.visited ∧
      (∃ p, valProducer g w = some p ∧ callbackOf g p ∈ s2.events) ∧
      (∃ rest, s'.events = s2.events ++ callbackOf g n :: rest) := by
  obtain ⟨nd', s1, s2, hnd', h1, h2, hbr⟩ := visitNode_succ_elim h
  rw [hnd] at hnd'
  injection hnd' with hnd'
  subst hnd'
  have hgood := visitNode_good g hWF fuel
  obtain ⟨hi1, _, _, _⟩ := visitVals_good g _ hgood nd.inputs s s1 h1
  obtain ⟨hi2, _, _, hpost2⟩ := visitSides_good g _ hgood nd.sideInputs s1 s2 h2
  have hwmem : w ∈ s2.visited := hpost2 w hmem
  have hinv2 : InvProd g s2 := hi2 (hi1 hinv)
  refine ⟨s2, hwmem, hinv2 w hwmem, ?_⟩
  cases hbr with
  | inl hbc =>
    obtain ⟨hc, s3, h3, hs'⟩ := hbc
    have hcb : callbackOf g n = Event.enterComposite n := by
      unfold callbackOf
      rw [isCompositeG_eq hnd, hc]
      rfl
    obtain ⟨_, Δp, hp3⟩ :=
      visitParts_prefixOf _ (fun q a b hq => (hgood q a b hq).1) nd.parts _ s3 h3
    obtain ⟨Δ, hΔ, _⟩ := markOutputs_shape g n nd.outputs (emit s3 (.leaveComposite n))
    refine ⟨Δp ++ ([Event.leaveComposite n] ++ Δ), ?_⟩
    rw [hs', hΔ, hcb]
    show s3.events ++ [Event.leaveComposite n] ++ Δ =
      s2.events ++ Event.enterComposite n :: (Δp ++ ([Event.leaveComposite n] ++ Δ))
    rw [hp3]
    show (s2.events ++ [Event.enterComposite n]) ++ Δp ++ [Event.leaveComposite n] ++ Δ =
      s2.events ++ Event.enterComposite n :: (Δp ++ ([Event.leaveComposite n] ++ Δ))
    simp
  | inr hbc =>
    obtain ⟨hc, hs'⟩ := hbc
    have hcb : callbackOf g n = Event.visitTransformE n := by
      unfold callbackOf
      rw [isCompositeG_eq hnd, hc]
      rfl
    obtain ⟨Δ, hΔ, _⟩ := markOutputs_shape g n nd.outputs (emit s2 (.visitTransformE n))
    refine ⟨Δ, ?_⟩
    rw [hs', hΔ, hcb]
    show s2.events ++ [Event.visitTransformE n] ++ Δ =
      s2.events ++ Event.visitTransformE n :: Δ
    simp

/-- Side-input pipeline used by the C8 witness: P (node 1) produces value
501; T (node 2) consumes it as a side input only. -/
def sideP : PState :=
  let p1 := (applyStep unitOracle formatFullLabel (addVal (initPState none) 501 pcollInfo)
    (plainTransform "P") (some []) true true [501]).2
  (applyStep unitOracle formatFullLabel (addVal p1 502 pcollInfo)
    { plainTransform "T" with sideInputs := [.asSideInput 501] }
    (some []) true true [502]).2

/-- Witness for C8 on the side-input pipeline: visiting node 2 (whose only
route to value 501 is the side input) yields a point before node 2's
callback where 501 is visited and its producer's callback has fired. -/
theorem claimC8_witness :
    ∃ s2 : VState,
      (501 : VId) ∈ s2.visited ∧
      (∃ p, valProducer sideP.graph 501 = some p ∧ callbackOf sideP.graph p ∈ s2.events) ∧
      (∃ rest, (VState.mk [502, 501]
          [Event.visitTransformE 1, Event.visitValueE 501 1,
           Event.visitTransformE 2, Event.visitValueE 502 2]).events =
        s2.events ++ callbackOf sideP.graph 2 :: rest) := by
  apply claimC8 sideP.graph (WFoutB_sound sideP.graph 5 (by decide)) 9 2
    ⟨[], []⟩ _ { parent := some 0, transformLabel := some "T", fullLabel := "T"
                 inputs := [], sideInputs := [.asSideInput 501], outputs := [502]
                 parts := [] } 501
  · show visitNode sideP.graph 10 2 ⟨[], []⟩ = some _
    rfl
  · decide
  · decide
  · exact invProd_empty sideP.graph
  · decide

/-- Claim C10: a node with no parts and no recorded outputs is classified
composite (the `all` over an empty outputs list is vacuously true); the
root sentinel created by `Pipeline.__init__` (parent `None`, transform
`None`, empty label) is classified composite; and a full traversal of a
pipeline whose root has no inputs, side inputs or outputs begins with
`enter_composite_transform` on the root, not `visit_transform`. -/
theorem claimC10 :
    (∀ (g : Graph) (n : NodeId) (nd : NodeInfo), g.node? n = some nd →
      nd.parts = [] → nd.outputs = [] → isCompositeG g n = true) ∧
    (∀ opts : Option Opts,
      (initPState opts).graph.node? 0 =
        some { parent := none, transformLabel := none, fullLabel := ""
               inputs := [], sideInputs := [], outputs := [], parts := [] } ∧
      rootTransform (initPState opts) = 0 ∧
      isCompositeG (initPState opts).graph 0 = true) ∧
    (∀ (p : PState) (fuel : Nat) (s' : VState) (nd : NodeInfo),
      p.graph.node? (rootTransform p) = some nd →
      nd.inputs = [] → nd.sideInputs = [] → nd.outputs = [] →
      pipelineVisit p fuel none = .done s' →
        s'.events.head? = some (.enterComposite (rootTransform p))) := by
  refine ⟨?_, ?_, ?_⟩
  · intro g n nd hnd hp ho
    rw [isCompositeG_eq hnd]
    unfold isCompositeN
    rw [hp, ho]
    rfl
  · intro opts
    exact ⟨rfl, rfl, rfl⟩
  · intro p fuel s' nd hnd hin hsi hout hvisit
    have heq : pipelineVisit p fuel none =
        (match visitNode p.graph fuel (rootTransform p) ⟨[], []⟩ with
         | none => VisitOutcome.visitFailed
         | some s => VisitOutcome.done s) := rfl
    rw [heq] at hvisit
    split at hvisit
    · cases hvisit
    · next s hs =>
      injection hvisit with hvisit
      subst hvisit
      cases fuel with
      | zero => cases hs
      | succ fuel =>
        obtain ⟨nd', s1, s2, hnd', h1, h2, hbr⟩ := visitNode_succ_elim hs
        rw [hnd] at hnd'
        injection hnd' with hnd'
        subst hnd'
        rw [hin] at h1
        injection h1 with h1
        rw [hsi] at h2
        rw [← h1] at h2
        injection h2 with h2
        have hcomp : isCompositeN p.graph (rootTransform p) nd = true := by
          unfold isCompositeN
          rw [hout]
          simp
        cases hbr with
        | inl hbc =>
          obtain ⟨_, s3, h3, hs'⟩ := hbc
          rw [hout] at hs'
          have hmark : markOutputs p.graph (rootTransform p) []
              (emit s3 (Event.leaveComposite (rootTransform p))) =
              emit s3 (Event.leaveComposite (rootTransform p)) := rfl
          rw [hmark] at hs'
          obtain ⟨_, Δp, hp3⟩ :=
            visitParts_prefixOf _ (visitNode_prefixOf p.graph fuel) nd.parts _ s3 h3
          rw [← h2] at hp3
          have hs3 : s3.events = Event.enterComposite (rootTransform p) :: Δp := by
            rw [hp3]
            rfl
          rw [hs']
          show (s3.events ++ [Event.leaveComposite (rootTransform p)]).head? =
            some (Event.enterComposite (rootTransform p))
          rw [hs3]
          rfl
        | inr hbc =>
          rw [hbc.1] at hcomp
          cases hcomp

/-- Witness for C10: the freshly initialised pipeline's root sentinel has
no parts and no outputs yet is composite, and its full traversal's first
callback is `enter_composite_transform` on the root. -/
theorem claimC10_witness :
    isCompositeG (initPState none).graph 0 = true ∧
    (VState.mk ([] : List VId)
      [Event.enterComposite 0, Event.leaveComposite 0]).events.head? =
      some (.enterComposite (rootTransform (initPState none))) := by
  constructor
  · exact claimC10.1 (initPState none).graph 0
      { parent := none, transformLabel := none, fullLabel := ""
        inputs := [], sideInputs := [], outputs := [], parts := [] }
      (by decide) rfl rfl
  · exact claimC10.2.2 (initPState none) 1
      (VState.mk [] [Event.enterComposite 0, Event.leaveComposite 0])
      { parent := none, transformLabel := none, fullLabel := ""
        inputs := [], sideInputs := [], outputs := [], parts := [] }
      (by decide) rfl rfl rfl rfl

theorem isPColl_isSome {g : Graph} {v : VId} (h : isPColl g v = true) :
    (g.val? v).isSome := by
  unfold isPColl at h
  cases hv : g.val? v with
  | none => rw [hv] at h; cases h
  | some i => rfl

/-- Element types of all values are untouched by the producer and output
steps of the result loop. -/
theorem elementTypeOf_preSteps {c cur : NodeId} {g : Graph} {v : VId} (w : VId) :
    elementTypeOf (outputStep cur (producerStep c g v) v) w = elementTypeOf g w := by
  rw [show outputStep cur (producerStep c g v) v =
    setNodeInfo (producerStep c g v) cur
      (fun nd => { nd with outputs := nd.outputs ++ [v] }) from rfl]
  rw [elementTypeOf_setNodeInfo]
  unfold producerStep
  split
  · rw [elementTypeOf_setProdTy]
  · rfl

theorem isPColl_preSteps {c cur : NodeId} {g : Graph} {v : VId} (w : VId) :
    isPColl (outputStep cur (producerStep c g v) v) w = isPColl g w := by
  rw [show outputStep cur (producerStep c g v) v =
    setNodeInfo (producerStep c g v) cur
      (fun nd => { nd with outputs := nd.outputs ++ [v] }) from rfl]
  rw [isPColl_setNodeInfo]
  unfold producerStep
  split
  · rw [isPColl_setProdTy]
  · rfl

theorem inputElementType_congr {Subst : Type} (oracle : TypeOracle Subst)
    {g1 g2 : Graph} (ins : List VId)
    (h : ∀ w, elementTypeOf g1 w = elementTypeOf g2 w) :
    inputElementType oracle g1 ins = inputElementType oracle g2 ins := by
  unfold inputElementType
  cases ins with
  | nil => rfl
  | cons a t =>
    cases t with
    | nil => exact h a
    | cons b t2 => rfl

/-- The element type assigned to a typeless `PCollection` result by one
result-loop iteration, by the three branches of the dispatch. -/
theorem elementTypeOf_processResultG_eq {Subst : Type} (oracle : TypeOracle Subst)
    (t : Transform) (c : NodeId) (ins : List VId) (cur : NodeId) (g : Graph) (v : VId)
    (hpc : isPColl g v = true) (hnone : elementTypeOf g v = none) :
    elementTypeOf (processResultG oracle t c ins true cur g v) v =
      (match t.simpleOutputType with
       | some dout =>
         match t.inputTypes with
         | some (din :: _) =>
           some (oracle.bindTV dout (oracle.matchTV din (inputElementType oracle g ins)))
         | _ => some dout
       | none => t.inferOutputType (inputElementType oracle g ins)) := by
  unfold processResultG inferStep
  dsimp only
  have hels : ∀ w, elementTypeOf (outputStep cur (producerStep c g v) v) w
      = elementTypeOf g w := fun w => elementTypeOf_preSteps w
  have hpc2 : isPColl (outputStep cur (producerStep c g v) v) v = true := by
    rw [isPColl_preSteps]; exact hpc
  have hnone2 : elementTypeOf (outputStep cur (producerStep c g v) v) v = none := by
    rw [hels]; exact hnone
  have hin : inputElementType oracle (outputStep cur (producerStep c g v) v) ins =
      inputElementType oracle g ins := inputElementType_congr oracle ins hels
  have hsome2 : ((outputStep cur (producerStep c g v) v).val? v).isSome := by
    rw [show (outputStep cur (producerStep c g v) v).val? v =
      (producerStep c g v).val? v from val?_outputStep cur _ v v]
    rw [val?_isSome_producerStep]
    exact isPColl_isSome hpc
  obtain ⟨i2, hi2⟩ := Option.isSome_iff_exists.mp hsome2
  rw [if_pos ⟨rfl, hpc2, hnone2⟩]
  cases hso : t.simpleOutputType with
  | some dout =>
    cases hit : t.inputTypes with
    | some l =>
      cases l with
      | nil =>
        rw [elementTypeOf_setElem_self _ _ _ i2 hi2]
      | cons din rest =>
        rw [elementTypeOf_setElem_self _ _ _ i2 hi2, hin]
    | none =>
      rw [elementTypeOf_setElem_self _ _ _ i2 hi2]
  | none =>
    rw [elementTypeOf_setElem_self _ _ _ i2 hi2, hin]

/-- Claim C6: with type checking enabled, for a `PCollection` result with
no element type: if the transform declares a simple output type and a
declared input type exists, the result's element type becomes the
declared output type with its type variables bound by matching the
declared input type against the single input's concrete element type; if
the transform declares no output type, the element type is the
transform's own inference from the input's element type. -/
theorem claimC6 :
    (∀ {Subst : Type} (oracle : TypeOracle Subst) (fmt : String → String → String)
        (p : PState) (t : Transform) (v0 v : VId) (inOk outOk : Bool)
        (dout din : TypeX) (rest : List TypeX),
      applyLabel fmt p t ∉ p.applied_labels →
      ¬(typeCheckOn p ∧ ¬inOk) → ¬(typeCheckOn p ∧ ¬outOk) →
      typeCheckOn p = true →
      isPColl p.graph v = true → elementTypeOf p.graph v = none →
      t.simpleOutputType = some dout → t.inputTypes = some (din :: rest) →
        elementTypeOf (applyStep oracle fmt p t (some [v0]) inOk outOk [v]).2.graph v =
          some (oracle.bindTV dout (oracle.matchTV din (elementTypeOf p.graph v0)))) ∧
    (∀ {Subst : Type} (oracle : TypeOracle Subst) (fmt : String → String → String)
        (p : PState) (t : Transform) (v0 v : VId) (inOk outOk : Bool),
      applyLabel fmt p t ∉ p.applied_labels →
      ¬(typeCheckOn p ∧ ¬inOk) → ¬(typeCheckOn p ∧ ¬outOk) →
      typeCheckOn p = true →
      isPColl p.graph v = true → elementTypeOf p.graph v = none →
      t.simpleOutputType = none →
        elementTypeOf (applyStep oracle fmt p t (some [v0]) inOk outOk [v]).2.graph v =
          t.inferOutputType (elementTypeOf p.graph v0)) := by
  have main : ∀ {Subst : Type} (oracle : TypeOracle Subst)
      (fmt : String → String → String) (p : PState) (t : Transform) (v0 v : VId)
      (inOk outOk : Bool),
      applyLabel fmt p t ∉ p.applied_labels →
      ¬(typeCheckOn p ∧ ¬inOk) → ¬(typeCheckOn p ∧ ¬outOk) →
      typeCheckOn p = true →
      isPColl p.graph v = true → elementTypeOf p.graph v = none →
        elementTypeOf (applyStep oracle fmt p t (some [v0]) inOk outOk [v]).2.graph v =
          (match t.simpleOutputType with
           | some dout =>
             match t.inputTypes with
             | some (din :: _) =>
               some (oracle.bindTV dout
                 (oracle.matchTV din (elementTypeOf p.graph v0)))
             | _ => some dout
           | none => t.inferOutputType (elementTypeOf p.graph v0)) := by
    intro Subst oracle fmt p t v0 v inOk outOk hdup hin hout htc hpc hnone
    rw [applyStep_shape oracle fmt p t [v0] inOk outOk [v] hdup, if_neg hin, if_neg hout]
    have hgoal :
        elementTypeOf (applyFolded oracle fmt p t [v0] [v]).graph v =
          (match t.simpleOutputType with
           | some dout =>
             match t.inputTypes with
             | some (din :: _) =>
               some (oracle.bindTV dout
                 (oracle.matchTV din (elementTypeOf p.graph v0)))
             | _ => some dout
           | none => t.inferOutputType (elementTypeOf p.graph v0)) := by
      unfold applyFolded
      dsimp only
      rw [List.foldl_cons, List.foldl_nil, htc]
      have hpcP : isPColl (applyPushed fmt p t [v0]).graph v = true := by
        rw [show isPColl (applyPushed fmt p t [v0]).graph v = isPColl p.graph v from by
          unfold isPColl
          rw [val?_applyPushed]]
        exact hpc
      have hnoneP : elementTypeOf (applyPushed fmt p t [v0]).graph v = none := by
        rw [show elementTypeOf (applyPushed fmt p t [v0]).graph v
            = elementTypeOf p.graph v from by
          unfold elementTypeOf
          rw [val?_applyPushed]]
        exact hnone
      rw [elementTypeOf_processResultG_eq oracle t p.nextNode [v0] p.nextNode
        (applyPushed fmt p t [v0]).graph v hpcP hnoneP]
      have hie : inputElementType oracle (applyPushed fmt p t [v0]).graph [v0] =
          elementTypeOf p.graph v0 := by
        show elementTypeOf (applyPushed fmt p t [v0]).graph v0 = elementTypeOf p.graph v0
        unfold elementTypeOf
        rw [val?_applyPushed]
      rw [hie]
    split
    · exact hgoal
    · exact hgoal
  constructor
  · intro Subst oracle fmt p t v0 v inOk outOk dout din rest hdup hin hout htc hpc
      hnone hso hit
    have h := main oracle fmt p t v0 v inOk outOk hdup hin hout htc hpc hnone
    rw [hso, hit] at h
    exact h
  · intro Subst oracle fmt p t v0 v inOk outOk hdup hin hout htc hpc hnone hso
    have h := main oracle fmt p t v0 v inOk outOk hdup hin hout htc hpc hnone
    rw [hso] at h
    exact h

/-- Transform with a generic declared output type, for the C6 witness. -/
def gTransform : Transform :=
  { label := "G"
    sideInputs := []
    inputTypes := some [3]
    simpleOutputType := some 4
    outputTypes := some []
    inferOutputType := fun _ => none }

/-- Transform with no declared output type but an inference function, for
the C6 witness. -/
def hTransform : Transform :=
  { label := "H"
    sideInputs := []
    inputTypes := none
    simpleOutputType := none
    outputTypes := some []
    inferOutputType := fun o => match o with | some x => some (x + 1) | none => none }

/-- Oracle with distinguishable encodings, for the C6 witness. -/
def natOracle : TypeOracle Nat :=
  { matchTV := fun a b => a * 1000 + (match b with | some x => x | none => 999)
    bindTV := fun d s => d * 1000000 + s
    anyT := 7 }

/-- Type-checking pipeline for the C6 witness: input value 601 has element
type 5; output value 602 has none. -/
def tyP : PState :=
  addVal (addVal (initPState (some { pipeline_type_check := true
                                     type_check_strictness := "DEFAULT" }))
    601 { producer := some 0, elementType := some 5, kind := .pcoll })
    602 pcollInfo

/-- Witness for C6: the generic-binding branch computes
`bind 4 (match 3 (some 5))` for the output's element type, and the
inference branch defers to the transform's `infer_output_type`. -/
theorem claimC6_witness :
    elementTypeOf (applyStep natOracle formatFullLabel tyP gTransform
      (some [601]) true true [602]).2.graph 602 = some 4003005 ∧
    elementTypeOf (applyStep natOracle formatFullLabel tyP hTransform
      (some [601]) true true [602]).2.graph 602 = some 6 := by
  constructor
  · have h := claimC6.1 natOracle formatFullLabel tyP gTransform
      601 602 true true 4 3 []
      (by decide) (by decide) (by decide) (by decide) (by decide) (by decide) rfl rfl
    rw [h]
    decide
  · have h := claimC6.2 natOracle formatFullLabel tyP hTransform
      601 602 true true
      (by decide) (by decide) (by decide) (by decide) (by decide) (by decide) rfl
    rw [h]
    decide

end Beam
